import Mathlib

/-!
Verification of the voxel region-file container (`streams/region_file.cpp`).

The development shallowly embeds the region file's data model and operations:
the header with its block-info table, the in-memory sector map, the byte-level
file image, and the public operations `open`, `load_block`, `save_block`,
`close`, together with the internal allocator routine
`remove_sectors_from_block` and the header codec `save_header` / `load_header`.

Machine integers of the source are modelled as `Nat`, with explicit `% 256`
(for `store_8`) and 32-bit little-endian byte encodings where the source
writes to disk.  The block serializer is an out-of-scope collaborator and is
passed in as an opaque pair of functions.  The on-disk file is a `List Nat`
of byte values.
-/

namespace VoxelRegionFile

/-- Three-dimensional integer vector (grid coordinates and region sizes).
Claims quantify only over in-range, non-negative coordinates, so components
are modelled as `Nat`. -/
structure Vector3i where
  x : Nat
  y : Nat
  z : Nat
deriving DecidableEq, Repr

/-- Volume of a size vector, `x * y * z` (source `Vector3i::volume`). -/
def Vector3i.volume (v : Vector3i) : Nat :=
  v.x * v.y * v.z

/-- Linear zxy-major index of a position inside a region of size `r`
(source `Vector3i::get_zxy_index`, used by `get_block_index_in_header`).
Modelled from the spec: "the linear index is `p.y + R.y * (p.x + R.x * p.z)`"
(the method itself lives outside the provided sources). -/
def Vector3i.get_zxy_index (p r : Vector3i) : Nat :=
  p.y + r.y * (p.x + r.x * p.z)

/-- Inverse of `get_zxy_index` (source `Vector3i::from_zxy_index`, used by
`get_block_position_from_index`).  Modelled from the spec: "The inverse
`index → position` is the same permutation". -/
def Vector3i.from_zxy_index (i : Nat) (r : Vector3i) : Vector3i :=
  ⟨(i / r.y) % r.x, i % r.y, i / (r.y * r.x)⟩

/-- Godot-style error codes used by the region file. -/
inductive Err where
  | OK
  | DOES_NOT_EXIST
  | CANT_CREATE
  | FILE_CANT_READ
  | FILE_CANT_WRITE
  | INVALID_PARAMETER
  | PARSE_ERROR
  | UNAVAILABLE
deriving DecidableEq, Repr

/-- Packed per-cell record of the block-info table.  Modelled from the spec:
"Packed 32-bit integer; `sector_count` in the low byte(s), `sector_index` in
the remaining high bits ... a typical choice is 8 bits for count, 24 bits for
index", with the spec's requirement that "the format's setters must reject
overflow" rendered by keeping the two fields as exact naturals (the packed
`data` word is recovered by `BlockInfo.data`). -/
structure BlockInfo where
  sector_index : Nat
  sector_count : Nat
deriving DecidableEq, Repr

/-- The packed 32-bit word of a `BlockInfo`; `0` means the block is absent. -/
def BlockInfo.data (b : BlockInfo) : Nat :=
  b.sector_index * 256 + b.sector_count

/-- An 8-bit RGBA color of the optional palette. -/
structure Color8 where
  r : Nat
  g : Nat
  b : Nat
  a : Nat
deriving DecidableEq, Repr

/-- Number of voxel channels (`VoxelRegionFile::CHANNEL_COUNT`, equal to
`VoxelBuffer::MAX_CHANNELS`).  Modelled from the spec: the channel count is
fixed by the format; the concrete constant lives in a header outside the
provided sources. -/
def CHANNEL_COUNT : Nat := 8

/-- Number of values of the channel-depth enumeration
(`VoxelBuffer::DEPTH_COUNT`).  Modelled from the spec: depths come "from an
enumerated depth set"; the enum itself lives outside the provided sources. -/
def DEPTH_COUNT : Nat := 4

/-- Format descriptor of a region file (source `VoxelRegionFile::Format`). -/
structure Format where
  block_size_po2 : Nat
  region_size : Vector3i
  channel_depths : List Nat
  sector_size : Nat
  has_palette : Bool
  palette : List Color8
deriving DecidableEq, Repr

/-- Header of a region file: version byte, format, block-info table. -/
structure Header where
  version : Nat
  format : Format
  blocks : List BlockInfo
deriving DecidableEq, Repr

/-- Minimal model of a `VoxelBuffer` block value: its size, per-channel
depths, and an opaque content identity (the serializer is out of scope and
only ever sees the whole value). -/
structure VoxelBlock where
  size : Vector3i
  channel_depths : List Nat
  content : Nat
deriving DecidableEq, Repr

/-- Whole in-memory state of one `VoxelRegionFile` instance, together with
the byte image of its backing file. -/
structure RegionState where
  header : Header
  sectors : List Vector3i
  blocks_begin_offset : Nat
  file : List Nat
  fileOpen : Bool
  header_modified : Bool
  file_path : String
deriving DecidableEq, Repr

/-- Current format version (source constant `FORMAT_VERSION = 3`). -/
def FORMAT_VERSION : Nat := 3

/-- Legacy format version 2 (source `FORMAT_VERSION_LEGACY_2`). -/
def FORMAT_VERSION_LEGACY_2 : Nat := 2

/-- Byte size of the magic string plus the version byte (source
`MAGIC_AND_VERSION_SIZE = 4 + 1`). -/
def MAGIC_AND_VERSION_SIZE : Nat := 4 + 1

/-- Fixed header byte count after magic and version (source
`FIXED_HEADER_DATA_SIZE = 7 + CHANNEL_COUNT`). -/
def FIXED_HEADER_DATA_SIZE : Nat := 7 + CHANNEL_COUNT

/-- Palette byte size (source `PALETTE_SIZE_IN_BYTES = 256 * 4`). -/
def PALETTE_SIZE_IN_BYTES : Nat := 256 * 4

/-- Byte values of the magic string `"VXR_"`. -/
def magicBytes : List Nat := [86, 88, 82, 95]

/-- Read `n` bytes of the file image starting at byte offset `ofs`
(fewer if the file ends first), as `FileAccess::get_buffer`. -/
def readBytes (file : List Nat) (ofs n : Nat) : List Nat :=
  (file.drop ofs).take n

/-- Overwrite the file image at byte offset `ofs` with `data`, zero-filling
any gap when `ofs` lies past the end (seek-then-store on a `FileAccess`). -/
def storeBytes (file : List Nat) (ofs : Nat) (data : List Nat) : List Nat :=
  file.take ofs ++ List.replicate (ofs - file.length) 0 ++ data ++ file.drop (ofs + data.length)

/-- Little-endian byte encoding of a 32-bit store (`FileAccess::store_32`). -/
def encode32 (v : Nat) : List Nat :=
  [v % 256, v / 256 % 256, v / 65536 % 256, v / 16777216 % 256]

/-- Little-endian decoding of four bytes (`FileAccess::get_32`). -/
def decode32 : List Nat → Nat
  | [a, b, c, d] => a + 256 * b + 65536 * c + 16777216 * d
  | _ => 0

/-- Read a 32-bit little-endian value of the file image at offset `ofs`. -/
def get_32 (file : List Nat) (ofs : Nat) : Nat :=
  decode32 (readBytes file ofs 4)

/-- Little-endian byte encoding of a 16-bit store (`FileAccess::store_16`). -/
def encode16 (v : Nat) : List Nat :=
  [v % 256, v / 256 % 256]

/-- Sector count needed for a byte size (source
`VoxelRegionFile::get_sector_count_from_bytes`:
`(size_in_bytes - 1) / _header.format.sector_size + 1`); the sector size of
the file's format is passed explicitly. -/
def get_sector_count_from_bytes (sector_size size_in_bytes : Nat) : Nat :=
  (size_in_bytes - 1) / sector_size + 1

/-- Byte size of a version-3 header (source
`VoxelRegionFile::get_header_size_v3`). -/
def get_header_size_v3 (format : Format) : Nat :=
  MAGIC_AND_VERSION_SIZE + FIXED_HEADER_DATA_SIZE +
    (if format.has_palette then PALETTE_SIZE_IN_BYTES else 0) +
    format.region_size.volume * 4

/-- Zero-padding byte count that `pad_to_sector_size` writes when the
position relative to `blocks_begin_offset` is `rpos`. -/
def padAmount (sector_size rpos : Nat) : Nat :=
  if rpos = 0 then 0 else sector_size - (rpos - 1) % sector_size - 1

/-- Byte encoding of one palette color (four `store_8` calls in
`save_header`). -/
def encodeColor (c : Color8) : List Nat :=
  [c.r % 256, c.g % 256, c.b % 256, c.a % 256]

/-- Bytes written by `save_header` for the format fields after the version
byte: `block_size_po2`, the three region-size bytes, the channel depths, the
16-bit sector size, and the palette marker with the optional palette. -/
def encodeFormat (fmt : Format) : List Nat :=
  [fmt.block_size_po2 % 256, fmt.region_size.x % 256,
    fmt.region_size.y % 256, fmt.region_size.z % 256]
  ++ fmt.channel_depths.map (· % 256)
  ++ encode16 fmt.sector_size
  ++ (if fmt.has_palette then 255 :: fmt.palette.flatMap encodeColor
      else [0])

/-- Full byte image produced by `VoxelRegionFile::save_header`: magic,
version, format fields, then the raw block-info table (little-endian
32-bit words, as the `store_buffer` of the packed structs). -/
def encodeHeader (h : Header) : List Nat :=
  magicBytes ++ [h.version % 256] ++ encodeFormat h.format
    ++ h.blocks.flatMap (fun b => encode32 b.data)

/-- Take exactly `n` bytes of the stream or fail (models a `get_buffer`
whose returned size is checked against the requested size). -/
def takeExact (n : Nat) (l : List Nat) : Option (List Nat × List Nat) :=
  if n ≤ l.length then some (l.take n, l.drop n) else none

/-- One `get_8`: a byte, or 0 past the end of the file. -/
def readU8 (l : List Nat) : Nat × List Nat :=
  (l.headD 0, l.tail)

/-- One `get_16`, little-endian. -/
def readU16 (l : List Nat) : Nat × List Nat :=
  (l.headD 0 + 256 * l.tail.headD 0, l.drop 2)

/-- The channel-depth loop of `load_header`: reads one byte per channel and
fails (`PARSE_ERROR`) on a depth outside the enumerated set. -/
def readDepths : Nat → List Nat → Option (List Nat × List Nat)
  | 0, l => some ([], l)
  | k + 1, l =>
      let d := l.headD 0
      if d < DEPTH_COUNT then
        match readDepths k l.tail with
        | some (ds, r) => some (d :: ds, r)
        | none => none
      else none

/-- The palette loop of `load_header`: 256 RGBA colors, four `get_8` each. -/
def readColors : Nat → List Nat → List Color8 × List Nat
  | 0, l => ([], l)
  | k + 1, l =>
      let cs := readColors k (l.drop 4)
      (⟨l.headD 0, l.tail.headD 0, (l.drop 2).headD 0, (l.drop 3).headD 0⟩ :: cs.1, cs.2)

/-- Decoding of the raw block-info table: each 32-bit little-endian word is
split into the high-bits sector index and low-byte sector count. -/
def readBlockInfos : Nat → List Nat → List BlockInfo
  | 0, _ => []
  | k + 1, l =>
      ⟨decode32 (l.take 4) / 256, decode32 (l.take 4) % 256⟩ :: readBlockInfos k (l.drop 4)

/-- The version-3 format parse of `load_header` (the body of its
`version == FORMAT_VERSION` branch).  `fmt0` is the format held by the
instance before the call; fields not read keep its values (in particular the
palette array when the marker says no palette). -/
def parseFormatV3 (fmt0 : Format) (l : List Nat) : Option (Format × List Nat) :=
  let po2 := readU8 l
  let rx := readU8 po2.2
  let ry := readU8 rx.2
  let rz := readU8 ry.2
  match readDepths CHANNEL_COUNT rz.2 with
  | none => none
  | some (depths, r5) =>
      let ss := readU16 r5
      let marker := readU8 ss.2
      if marker.1 = 255 then
        let pal := readColors 256 marker.2
        some ({ block_size_po2 := po2.1, region_size := ⟨rx.1, ry.1, rz.1⟩,
                channel_depths := depths, sector_size := ss.1,
                has_palette := true, palette := pal.1 }, pal.2)
      else if marker.1 = 0 then
        some ({ block_size_po2 := po2.1, region_size := ⟨rx.1, ry.1, rz.1⟩,
                channel_depths := depths, sector_size := ss.1,
                has_palette := false, palette := fmt0.palette }, marker.2)
      else none

/-- `VoxelRegionFile::load_header` as a pure parser over the file bytes.
All failure paths of the source return `ERR_PARSE_ERROR`, so failure is
`none`.  On success it yields the parsed header and the resulting
`_blocks_begin_offset` (the stream position after the block-info table).
Versions other than the current one skip the format fields and keep `fmt0`
(that is how a legacy v2 file is read). -/
def load_header (fmt0 : Format) (bytes : List Nat) : Option (Header × Nat) :=
  match takeExact 4 bytes with
  | none => none
  | some (magic, r1) =>
      if magic ≠ magicBytes then none
      else
        let version := readU8 r1
        let fmtRes : Option (Format × List Nat) :=
          if version.1 = FORMAT_VERSION then parseFormatV3 fmt0 version.2
          else some (fmt0, version.2)
        match fmtRes with
        | none => none
        | some (fmt, r3) =>
            let vol := fmt.region_size.volume
            match takeExact (vol * 4) r3 with
            | none => none
            | some (blockBytes, r4) =>
                some (⟨version.1, fmt, readBlockInfos vol blockBytes⟩,
                  bytes.length - r4.length)

/-- The unconditional write part of `VoxelRegionFile::save_header` (after its
migration check): seek to 0, write the header image, record
`_blocks_begin_offset` and clear `_header_modified`. -/
def save_header_write (s : RegionState) : RegionState :=
  let bytes := encodeHeader s.header
  { s with file := storeBytes s.file 0 bytes,
           blocks_begin_offset := bytes.length,
           header_modified := false }

/-- The external file-byte-insert primitive (`VoxelFileUtils::insert_bytes`).
Modelled from the spec: "shift the file's tail forward by k bytes", the
inserted bytes being raw (zeros here). -/
def insertBytes (file : List Nat) (ofs k : Nat) : List Nat :=
  file.take ofs ++ List.replicate k 0 ++ file.drop ofs

/-- `VoxelRegionFile::migrate_from_v2_to_v3`: requires a staged format
(`block_size_po2 ≠ 0`), inserts the header-size difference after
magic+version, sets the version to the current one *before* rewriting the
header, and rewrites it.  The final header write is `save_header_write`; the
full `save_header` would behave identically because the version is already
current (see `save_header_no_reentry_of_current`). -/
def migrate_from_v2_to_v3 (s : RegionState) : Option RegionState :=
  if s.header.format.block_size_po2 = 0 then none
  else
    let old_header_size := s.header.format.region_size.volume * 4
    let new_header_size := get_header_size_v3 s.header.format - MAGIC_AND_VERSION_SIZE
    if new_header_size < old_header_size then none
    else
      let extra_bytes_needed := new_header_size - old_header_size
      let s1 := { s with
        file := insertBytes s.file MAGIC_AND_VERSION_SIZE extra_bytes_needed,
        header := { s.header with version := FORMAT_VERSION } }
      some (save_header_write s1)

/-- `VoxelRegionFile::migrate_to_latest`: fails on a closed file or empty
path, migrates v2 files, and fails on any other non-current version. -/
def migrate_to_latest (s : RegionState) : Option RegionState :=
  if s.fileOpen = false then none
  else if s.file_path = "" then none
  else if s.header.version = FORMAT_VERSION_LEGACY_2 then migrate_from_v2_to_v3 s
  else if s.header.version ≠ FORMAT_VERSION then none
  else some s

/-- `VoxelRegionFile::save_header`: migrate when the version is not current,
then write the header image. -/
def save_header (s : RegionState) : Option RegionState :=
  if s.header.version ≠ FORMAT_VERSION then
    match migrate_to_latest s with
    | none => none
    | some s1 => some (save_header_write s1)
  else some (save_header_write s)

/-- `VoxelRegionFile::verify_format`: block edge must be
`1 << block_size_po2` and all channel depths must match the format. -/
def verify_format (fmt : Format) (block : VoxelBlock) : Bool :=
  decide (block.size = ⟨2 ^ fmt.block_size_po2, 2 ^ fmt.block_size_po2, 2 ^ fmt.block_size_po2⟩
    ∧ block.channel_depths = fmt.channel_depths)

/-- The sector-copy loop of `remove_sectors_from_block`: `k` iterations of
read-one-sector at `src`, write it at `dst`, advance both. -/
def copyRun : List Nat → Nat → Nat → Nat → Nat → List Nat
  | file, _, _, _, 0 => file
  | file, src, dst, ss, k + 1 =>
      copyRun (storeBytes file dst (readBytes file src ss)) (src + ss) (dst + ss) ss k

/-- `VoxelRegionFile::remove_sectors_from_block`: drop the last
`p_sector_count` sectors of the block at `block_pos`, slide all later
sectors left in the file and the sector map, shrink or clear the block's
info, and shift the sector index of every present block that was after it. -/
def remove_sectors_from_block (s : RegionState) (block_pos : Vector3i)
    (p_sector_count : Nat) : RegionState :=
  let ss := s.header.format.sector_size
  let old_end_offset := s.blocks_begin_offset + s.sectors.length * ss
  let block_index := block_pos.get_zxy_index s.header.format.region_size
  let bi := s.header.blocks.getD block_index ⟨0, 0⟩
  let src_offset := s.blocks_begin_offset + (bi.sector_index + bi.sector_count) * ss
  let dst_offset := src_offset - p_sector_count * ss
  let file1 := copyRun s.file src_offset dst_offset ss ((old_end_offset - src_offset) / ss)
  let sectors1 := s.sectors.take (bi.sector_index + bi.sector_count - p_sector_count)
                    ++ s.sectors.drop (bi.sector_index + bi.sector_count)
  let old_sector_index := bi.sector_index
  let bi1 := if p_sector_count < bi.sector_count
             then BlockInfo.mk bi.sector_index (bi.sector_count - p_sector_count)
             else BlockInfo.mk 0 0
  let blocks1 := s.header.blocks.set block_index bi1
  let blocks2 :=
    if old_sector_index < sectors1.length then
      blocks1.map (fun b =>
        if b.data ≠ 0 ∧ old_sector_index < b.sector_index
        then BlockInfo.mk (b.sector_index - p_sector_count) b.sector_count
        else b)
    else blocks1
  { s with header := { s.header with blocks := blocks2 },
           sectors := sectors1, file := file1 }

/-- `VoxelRegionFile::save_block`.  The serializer is the out-of-scope codec
`ser`; `ser block` is the opaque compressed payload `serialize_and_compress`
returns. -/
def save_block (s : RegionState) (position : Vector3i) (block : VoxelBlock)
    (ser : VoxelBlock → List Nat) : Err × RegionState :=
  if verify_format s.header.format block = false then (Err.INVALID_PARAMETER, s)
  else if s.fileOpen = false then (Err.FILE_CANT_WRITE, s)
  else
    match (if s.header.version ≠ FORMAT_VERSION then migrate_to_latest s else some s) with
    | none => (Err.UNAVAILABLE, s)
    | some s1 =>
      let lut_index := position.get_zxy_index s1.header.format.region_size
      if s1.header.blocks.length ≤ lut_index then (Err.INVALID_PARAMETER, s1)
      else
        let bi := s1.header.blocks.getD lut_index ⟨0, 0⟩
        let ss := s1.header.format.sector_size
        let bbo := s1.blocks_begin_offset
        let data := ser block
        if bi.data = 0 then
          let block_offset := bbo + s1.sectors.length * ss
          let written_size := 4 + data.length
          let file1 := storeBytes s1.file block_offset (encode32 data.length ++ data)
          let file2 := storeBytes file1 (block_offset + written_size)
                         (List.replicate (padAmount ss (block_offset + written_size - bbo)) 0)
          let newCount := get_sector_count_from_bytes ss written_size
          let bi1 := BlockInfo.mk ((block_offset - bbo) / ss) newCount
          (Err.OK,
            { s1 with
              header := { s1.header with blocks := s1.header.blocks.set lut_index bi1 },
              sectors := s1.sectors ++ List.replicate newCount position,
              file := file2,
              header_modified := true })
        else
          let old_sector_index := bi.sector_index
          let old_sector_count := bi.sector_count
          let written_size := 4 + data.length
          let new_sector_count := get_sector_count_from_bytes ss written_size
          if new_sector_count ≤ old_sector_count then
            let s2 := if new_sector_count < old_sector_count then
                { remove_sectors_from_block s1 position (old_sector_count - new_sector_count)
                  with header_modified := true }
              else s1
            let block_offset := bbo + old_sector_index * ss
            let file1 := storeBytes s2.file block_offset (encode32 data.length ++ data)
            let bi2 := s2.header.blocks.getD lut_index ⟨0, 0⟩
            (Err.OK,
              { s2 with
                header := { s2.header with
                  blocks := s2.header.blocks.set lut_index
                    (BlockInfo.mk bi2.sector_index new_sector_count) },
                file := file1 })
          else
            let s2 := remove_sectors_from_block s1 position old_sector_count
            let block_offset := bbo + s2.sectors.length * ss
            let file1 := storeBytes s2.file block_offset (encode32 data.length ++ data)
            let file2 := storeBytes file1 (block_offset + written_size)
                           (List.replicate (padAmount ss (block_offset + written_size - bbo)) 0)
            (Err.OK,
              { s2 with
                header := { s2.header with
                  blocks := s2.header.blocks.set lut_index
                    (BlockInfo.mk s2.sectors.length new_sector_count) },
                sectors := s2.sectors ++ List.replicate new_sector_count position,
                file := file2,
                header_modified := true })

/-- `VoxelRegionFile::load_block`.  `out_block` is the caller-provided
buffer (`none` models a null `Ref`); `deser` is the out-of-scope
`decompress_and_deserialize`, fed the payload bytes and the prepared buffer.
The self-comparison size guard of the source
(`out_block->get_size() != out_block->get_size()`) is kept verbatim. -/
def load_block (s : RegionState) (position : Vector3i) (out_block : Option VoxelBlock)
    (deser : List Nat → VoxelBlock → Option VoxelBlock) : Err × Option VoxelBlock :=
  match out_block with
  | none => (Err.INVALID_PARAMETER, none)
  | some outb =>
      if s.fileOpen = false then (Err.FILE_CANT_READ, some outb)
      else
        let lut_index := position.get_zxy_index s.header.format.region_size
        if s.header.blocks.length ≤ lut_index then (Err.INVALID_PARAMETER, some outb)
        else
          let block_info := s.header.blocks.getD lut_index ⟨0, 0⟩
          if block_info.data = 0 then (Err.DOES_NOT_EXIST, some outb)
          else if outb.size ≠ outb.size then (Err.INVALID_PARAMETER, some outb)
          else
            let out1 := { outb with channel_depths := s.header.format.channel_depths }
            let ofs := s.blocks_begin_offset
              + block_info.sector_index * s.header.format.sector_size
            let block_data_size := get_32 s.file ofs
            let payload := readBytes s.file (ofs + 4) block_data_size
            match deser payload out1 with
            | none => (Err.PARSE_ERROR, some out1)
            | some b => (Err.OK, some b)

/-- `VoxelRegionFile::has_block(Vector3i)`. -/
def has_block (s : RegionState) (position : Vector3i) : Bool :=
  if s.fileOpen = false then false
  else (s.header.blocks.getD (position.get_zxy_index s.header.format.region_size) ⟨0, 0⟩).data ≠ 0

/-- The sector-map rebuild of `VoxelRegionFile::open`: filter present
blocks keeping their table index, sort by sector index, and append each
block's grid position once per owned sector. -/
def rebuildSectors (h : Header) : List Vector3i :=
  let present := (List.range h.blocks.length).filterMap (fun i =>
    let b := h.blocks.getD i ⟨0, 0⟩
    if b.data ≠ 0 then some (b, i) else none)
  let sorted := present.mergeSort (fun a b => a.1.sector_index ≤ b.1.sector_index)
  sorted.flatMap (fun bi =>
    List.replicate bi.1.sector_count (Vector3i.from_zxy_index bi.2 h.format.region_size))

/-- `VoxelRegionFile::open` on an existing file image (the
`create_if_not_found` creation path is not taken): clear the sector map (the
leading `close()`), parse the header, and on success rebuild the sector map;
on a parse failure the instance stays closed and the file image untouched. -/
def openFile (s0 : RegionState) (bytes : List Nat) : Err × RegionState :=
  let s := { s0 with sectors := ([] : List Vector3i) }
  match load_header s.header.format bytes with
  | none => (Err.PARSE_ERROR, { s with fileOpen := false, file := bytes })
  | some (h, bbo) =>
      (Err.OK, { s with header := h, blocks_begin_offset := bbo, file := bytes,
                        fileOpen := true, sectors := rebuildSectors h,
                        header_modified := false })

/-- `VoxelRegionFile::close`: persist a modified header, close the handle,
clear the sector map.  A failed header write surfaces as
`ERR_FILE_CANT_WRITE` but the handle is closed regardless. -/
def closeFile (s : RegionState) : Err × RegionState :=
  if s.fileOpen = true then
    if s.header_modified = true then
      match save_header s with
      | none => (Err.FILE_CANT_WRITE, { s with fileOpen := false, sectors := [] })
      | some s1 => (Err.OK, { s1 with fileOpen := false, sectors := [] })
    else (Err.OK, { s with fileOpen := false, sectors := [] })
  else (Err.OK, { s with sectors := [] })

/-- Sum of the sector counts of the present blocks of a table (the length
the sector map must have, invariant I2). -/
def sumCounts : List BlockInfo → Nat
  | [] => 0
  | b :: t => (if b.data ≠ 0 then b.sector_count else 0) + sumCounts t

/-- The invariants of an open region file, as maintained between public
operations: current version (spec I6), positive sector size, table sized to
the region volume, I1 with the in-bounds part of I3 (each present block owns
exactly the map entries of its sector range, all naming its grid position),
I2 (map length is the total of present sector counts), and I5 (the file
image covers all sectors). -/
def InvOpen (s : RegionState) : Prop :=
  s.header.version = FORMAT_VERSION ∧
  0 < s.header.format.sector_size ∧
  s.header.blocks.length = s.header.format.region_size.volume ∧
  (∀ i, i < s.header.blocks.length →
    (s.header.blocks.getD i ⟨0, 0⟩).data ≠ 0 →
      1 ≤ (s.header.blocks.getD i ⟨0, 0⟩).sector_count ∧
      ∀ j, j < (s.header.blocks.getD i ⟨0, 0⟩).sector_count →
        (s.header.blocks.getD i ⟨0, 0⟩).sector_index + j < s.sectors.length ∧
        s.sectors.getD ((s.header.blocks.getD i ⟨0, 0⟩).sector_index + j) ⟨0, 0, 0⟩ =
          Vector3i.from_zxy_index i s.header.format.region_size) ∧
  s.sectors.length = sumCounts s.header.blocks ∧
  s.blocks_begin_offset + s.sectors.length * s.header.format.sector_size ≤ s.file.length

/-- State invariant: an open instance satisfies `InvOpen` (a closed instance
holds no sector map to constrain). -/
def Inv (s : RegionState) : Prop :=
  s.fileOpen = true → InvOpen s

instance (s : RegionState) : Decidable (InvOpen s) := by
  unfold InvOpen
  infer_instance

instance (s : RegionState) : Decidable (Inv s) := by
  unfold Inv
  infer_instance

/-- A well-formed header at the current version: every field fits the byte
widths `save_header` stores it with, the channel depths lie in the
enumerated depth set, the palette is the 256-entry array exactly when
`has_palette` says so, and the table is sized to the region volume. -/
def ValidHeaderV3 (h : Header) : Prop :=
  h.version = FORMAT_VERSION ∧
  h.format.block_size_po2 < 256 ∧
  h.format.region_size.x < 256 ∧
  h.format.region_size.y < 256 ∧
  h.format.region_size.z < 256 ∧
  h.format.channel_depths.length = CHANNEL_COUNT ∧
  (∀ d ∈ h.format.channel_depths, d < DEPTH_COUNT) ∧
  h.format.sector_size < 65536 ∧
  (h.format.has_palette = true → h.format.palette.length = 256) ∧
  (∀ c ∈ h.format.palette, c.r < 256 ∧ c.g < 256 ∧ c.b < 256 ∧ c.a < 256) ∧
  h.blocks.length = h.format.region_size.volume ∧
  (∀ b ∈ h.blocks, b.sector_index < 16777216 ∧ b.sector_count < 256)

instance (h : Header) : Decidable (ValidHeaderV3 h) := by
  unfold ValidHeaderV3
  infer_instance

/-- Sequential layout of sorted present-block entries: each entry's
`sector_index` is the running total of the sector counts before it (the
shape `open`'s rebuild relies on). -/
def LayoutFrom : Nat → List (BlockInfo × Nat) → Prop
  | _, [] => True
  | acc, p :: t => p.1.sector_index = acc ∧ LayoutFrom (acc + p.1.sector_count) t

instance (acc : Nat) (l : List (BlockInfo × Nat)) : Decidable (LayoutFrom acc l) := by
  induction l generalizing acc with
  | nil => exact isTrue trivial
  | cons p t ih =>
      have := ih (acc + p.1.sector_count)
      unfold LayoutFrom
      infer_instance

/-- Well-formedness of an on-disk block-info table: sized to the region
volume, every present entry has at least one sector and its range inside
the total sector span, and present ranges are pairwise disjoint. -/
def TableOK (h : Header) : Prop :=
  h.blocks.length = h.format.region_size.volume ∧
  (∀ i, i < h.blocks.length → (h.blocks.getD i ⟨0, 0⟩).data ≠ 0 →
    1 ≤ (h.blocks.getD i ⟨0, 0⟩).sector_count ∧
    (h.blocks.getD i ⟨0, 0⟩).sector_index + (h.blocks.getD i ⟨0, 0⟩).sector_count ≤
      sumCounts h.blocks) ∧
  (∀ i, i < h.blocks.length → ∀ j, j < h.blocks.length →
    (i ≠ j ∧ (h.blocks.getD i ⟨0, 0⟩).data ≠ 0 ∧ (h.blocks.getD j ⟨0, 0⟩).data ≠ 0) →
    (h.blocks.getD i ⟨0, 0⟩).sector_index + (h.blocks.getD i ⟨0, 0⟩).sector_count ≤
      (h.blocks.getD j ⟨0, 0⟩).sector_index ∨
    (h.blocks.getD j ⟨0, 0⟩).sector_index + (h.blocks.getD j ⟨0, 0⟩).sector_count ≤
      (h.blocks.getD i ⟨0, 0⟩).sector_index)

instance (h : Header) : Decidable (TableOK h) := by
  unfold TableOK
  infer_instance

/-- A disk image a client may legally `open` with staged format `fmt0`
(spec: the file must already satisfy the invariants): it parses, is at the
current version, has a positive sector size, a well-formed table, and bytes
covering every sector. -/
def WellFormedDisk (fmt0 : Format) (bytes : List Nat) : Prop :=
  ∃ h bbo, load_header fmt0 bytes = some (h, bbo) ∧
    h.version = FORMAT_VERSION ∧
    0 < h.format.sector_size ∧
    TableOK h ∧
    bbo + sumCounts h.blocks * h.format.sector_size ≤ bytes.length

/-- One successful public operation of the container.  `save_ok` requires
the position to name a canonical grid cell of the region (the API is only
called with in-region block positions); `open_ok` requires the disk image
to satisfy the on-disk invariants, as the spec demands of files given to
`open`. -/
inductive Step : RegionState → RegionState → Prop
  | open_ok (s s' : RegionState) (bytes : List Nat)
      (hwf : WellFormedDisk s.header.format bytes)
      (hok : openFile s bytes = (Err.OK, s')) : Step s s'
  | save_ok (s : RegionState) (position : Vector3i) (block : VoxelBlock)
      (ser : VoxelBlock → List Nat)
      (hcanon : Vector3i.from_zxy_index
        (position.get_zxy_index s.header.format.region_size)
        s.header.format.region_size = position)
      (hok : (save_block s position block ser).1 = Err.OK) :
      Step s (save_block s position block ser).2
  | load_ok (s : RegionState) (position : Vector3i) (out : Option VoxelBlock)
      (deser : List Nat → VoxelBlock → Option VoxelBlock)
      (hok : (load_block s position out deser).1 = Err.OK) : Step s s
  | close_ok (s : RegionState)
      (hok : (closeFile s).1 = Err.OK) : Step s (closeFile s).2

/-- Zero or more successful public operations. -/
def Reachable : RegionState → RegionState → Prop :=
  Relation.ReflTransGen Step

/-- Concrete format fixture used to instantiate the theorems: a `(2,1,1)`
region of 2-voxel blocks with 4-byte sectors. -/
def testFormat : Format where
  block_size_po2 := 1
  region_size := ⟨2, 1, 1⟩
  channel_depths := [0, 0, 0, 0, 0, 0, 0, 0]
  sector_size := 4
  has_palette := false
  palette := []

/-- Concrete block value fixture matching `testFormat`. -/
def testBlock : VoxelBlock where
  size := ⟨2, 2, 2⟩
  channel_depths := [0, 0, 0, 0, 0, 0, 0, 0]
  content := 7

/-- Concrete fixture: freshly created empty region file (no present
blocks). -/
def testState1 : RegionState where
  header := { version := 3, format := testFormat, blocks := [⟨0, 0⟩, ⟨0, 0⟩] }
  sectors := []
  blocks_begin_offset := 2
  file := [9, 9]
  fileOpen := true
  header_modified := false
  file_path := "r.vxr"

/-- Concrete fixture: region file with block `(1,0,0)` at sectors `[0..1]`
and block `(0,0,0)` at sector `2`. -/
def testState2 : RegionState where
  header := { version := 3, format := testFormat, blocks := [⟨2, 1⟩, ⟨0, 2⟩] }
  sectors := [⟨1, 0, 0⟩, ⟨1, 0, 0⟩, ⟨0, 0, 0⟩]
  blocks_begin_offset := 2
  file := [9, 9] ++ [4, 0, 0, 0, 50, 50, 50, 50, 51, 51, 51, 51] ++ [2, 0, 0, 0, 60, 60]
  fileOpen := true
  header_modified := false
  file_path := "r.vxr"

/-- Concrete fixture: `testState2` not yet opened. -/
def testState2Closed : RegionState where
  header := { version := 3, format := testFormat, blocks := [⟨2, 1⟩, ⟨0, 2⟩] }
  sectors := []
  blocks_begin_offset := 2
  file := []
  fileOpen := false
  header_modified := false
  file_path := "r.vxr"

/-- Concrete fixture: a legacy v2 state (version 2, staged `testFormat`,
v2 file image: magic, version byte 2, two block-info words). -/
def testStateV2 : RegionState where
  header := { version := 2, format := testFormat, blocks := [⟨0, 0⟩, ⟨0, 0⟩] }
  sectors := []
  blocks_begin_offset := 13
  file := magicBytes ++ [2] ++ [0, 0, 0, 0, 0, 0, 0, 0]
  fileOpen := true
  header_modified := false
  file_path := "r.vxr"

/-- Concrete serializer fixture: a three-sector payload under `testFormat`
(8 payload bytes, 12 with the length prefix, sector size 4). -/
def testSer3 : VoxelBlock → List Nat :=
  fun _ => [1, 2, 3, 4, 5, 6, 7, 8]

/-- Concrete serializer fixture: a one-sector payload (2 payload bytes). -/
def testSer1 : VoxelBlock → List Nat :=
  fun b => [b.content, b.content]

/-- Concrete deserializer fixture: reads the first payload byte back into
the block's content. -/
def testDeser : List Nat → VoxelBlock → Option VoxelBlock :=
  fun payload o => some { o with content := payload.headD 0 }

/-- Concrete deserializer fixture: rebuilds the fixed test block geometry
and content from the first payload byte, taking the channel depths from the
destination block (as `load_block` overwrites them from the format). -/
def testDeserRT : List Nat → VoxelBlock → Option VoxelBlock :=
  fun payload o => some ⟨⟨2, 2, 2⟩, o.channel_depths, payload.headD 0⟩

end VoxelRegionFile

namespace VoxelRegionFile

/-- C9: `get_sector_count_from_bytes(W) = (W − 1) / sector_size + 1` equals
`ceil(W / sector_size)` for every `W ≥ 1` and positive sector size. -/
theorem sector_count_eq_ceil (ss W : Nat) (hss : 0 < ss) (hW : 1 ≤ W) :
    get_sector_count_from_bytes ss W = (W - 1) / ss + 1 ∧
      get_sector_count_from_bytes ss W = W ⌈/⌉ ss := by
  refine ⟨rfl, ?_⟩
  rw [Nat.ceilDiv_eq_add_pred_div, get_sector_count_from_bytes]
  have h1 : W + ss - 1 = (W - 1) + ss := by omega
  rw [h1, Nat.add_div_right _ hss]

/-- Witness for C9 at `W = 5`, `ss = 2`. -/
theorem sector_count_eq_ceil_witness :
    get_sector_count_from_bytes 2 5 = (5 - 1) / 2 + 1 ∧
      get_sector_count_from_bytes 2 5 = 5 ⌈/⌉ 2 :=
  sector_count_eq_ceil 2 5 (by decide) (by decide)

theorem zxy_lt_volume (r p : Vector3i)
    (hx : p.x < r.x) (hy : p.y < r.y) (hz : p.z < r.z) :
    p.get_zxy_index r < r.volume := by
  have h1 : p.x + r.x * p.z < r.x * r.z := by
    calc p.x + r.x * p.z < r.x + r.x * p.z := by omega
      _ = r.x * (p.z + 1) := by ring
      _ ≤ r.x * r.z := Nat.mul_le_mul_left _ (by omega)
  calc p.get_zxy_index r = p.y + r.y * (p.x + r.x * p.z) := rfl
    _ < r.y + r.y * (p.x + r.x * p.z) := by omega
    _ = r.y * (p.x + r.x * p.z + 1) := by ring
    _ ≤ r.y * (r.x * r.z) := Nat.mul_le_mul_left _ (by omega)
    _ = r.volume := by unfold Vector3i.volume; ring

theorem from_zxy_get_zxy (r p : Vector3i)
    (hx : p.x < r.x) (hy : p.y < r.y) (hz : p.z < r.z) :
    Vector3i.from_zxy_index (p.get_zxy_index r) r = p := by
  have hrx : 0 < r.x := by omega
  have hry : 0 < r.y := by omega
  unfold Vector3i.get_zxy_index Vector3i.from_zxy_index
  have e1 : (p.y + r.y * (p.x + r.x * p.z)) / r.y = p.x + r.x * p.z := by
    rw [Nat.add_mul_div_left _ _ hry, Nat.div_eq_of_lt hy]
    omega
  have e2 : (p.y + r.y * (p.x + r.x * p.z)) % r.y = p.y := by
    rw [Nat.add_mul_mod_self_left, Nat.mod_eq_of_lt hy]
  have e3 : (p.y + r.y * (p.x + r.x * p.z)) / (r.y * r.x) = p.z := by
    rw [show r.y * (p.x + r.x * p.z) = p.x * r.y + r.y * r.x * p.z by ring,
      ← Nat.add_assoc, Nat.add_mul_div_left _ _ (Nat.mul_pos hry hrx)]
    have : (p.y + p.x * r.y) / (r.y * r.x) = 0 := by
      apply Nat.div_eq_of_lt
      calc p.y + p.x * r.y < r.y + p.x * r.y := by omega
        _ = (p.x + 1) * r.y := by ring
        _ ≤ r.x * r.y := Nat.mul_le_mul_right _ (by omega)
        _ = r.y * r.x := by ring
    omega
  have e4 : (p.x + r.x * p.z) % r.x = p.x := by
    rw [Nat.add_mul_mod_self_left, Nat.mod_eq_of_lt hx]
  rw [e1, e2, e3, e4]

theorem axes_pos_of_lt_volume (r : Vector3i) (i : Nat) (hi : i < r.volume) :
    0 < r.x ∧ 0 < r.y ∧ 0 < r.z := by
  unfold Vector3i.volume at hi
  refine ⟨?_, ?_, ?_⟩
  · rcases Nat.eq_zero_or_pos r.x with h | h
    · rw [h] at hi
      simp at hi
    · exact h
  · rcases Nat.eq_zero_or_pos r.y with h | h
    · rw [h] at hi
      simp at hi
    · exact h
  · rcases Nat.eq_zero_or_pos r.z with h | h
    · rw [h] at hi
      simp at hi
    · exact h

theorem get_zxy_from_zxy (r : Vector3i) (i : Nat) (hi : i < r.volume) :
    (Vector3i.from_zxy_index i r).get_zxy_index r = i := by
  obtain ⟨hrx, hry, hrz⟩ := axes_pos_of_lt_volume r i hi
  unfold Vector3i.get_zxy_index Vector3i.from_zxy_index Vector3i.volume at *
  have key : i % r.y + r.y * ((i / r.y) % r.x + r.x * (i / (r.y * r.x))) = i := by
    have d1 : i / r.y / r.x = i / (r.y * r.x) := Nat.div_div_eq_div_mul i r.y r.x
    have m1 : (i / r.y) % r.x + r.x * (i / r.y / r.x) = i / r.y :=
      Nat.mod_add_div (i / r.y) r.x
    rw [← d1, m1]
    exact Nat.mod_add_div i r.y
  simpa using key

theorem from_zxy_injective (r : Vector3i) (i j : Nat)
    (hi : i < r.volume) (hj : j < r.volume)
    (h : Vector3i.from_zxy_index i r = Vector3i.from_zxy_index j r) : i = j := by
  have h1 := get_zxy_from_zxy r i hi
  have h2 := get_zxy_from_zxy r j hj
  rw [← h1, ← h2, h]

/-- C8: over a region with positive axes, the zxy linear index of an in-range
position is `p.y + R.y * (p.x + R.x * p.z)`, it lies below the region volume,
and `get_zxy_index` / `from_zxy_index` are mutually inverse. -/
theorem zxy_index_bijection (r p : Vector3i)
    (hx : p.x < r.x) (hy : p.y < r.y) (hz : p.z < r.z) :
    p.get_zxy_index r = p.y + r.y * (p.x + r.x * p.z) ∧
      p.get_zxy_index r < r.volume ∧
      Vector3i.from_zxy_index (p.get_zxy_index r) r = p ∧
      ∀ i, i < r.volume → (Vector3i.from_zxy_index i r).get_zxy_index r = i :=
  ⟨rfl, zxy_lt_volume r p hx hy hz, from_zxy_get_zxy r p hx hy hz,
    fun i hi => get_zxy_from_zxy r i hi⟩

/-- C10: the size guard of `load_block` compares the output buffer's size
with itself and can never fail.  For a non-null buffer of any dimensions and
a present block, `load_block` never returns `INVALID_PARAMETER` but proceeds
to set the buffer's channel depths to the format's and hands the stored
payload to the deserializer; `INVALID_PARAMETER` arises exactly for a null
buffer or an out-of-range header index. -/
theorem load_block_no_size_validation (s : RegionState) (position : Vector3i)
    (outb : VoxelBlock) (deser : List Nat → VoxelBlock → Option VoxelBlock)
    (hopen : s.fileOpen = true)
    (hlut : position.get_zxy_index s.header.format.region_size < s.header.blocks.length)
    (hpresent :
      (s.header.blocks.getD (position.get_zxy_index s.header.format.region_size) ⟨0, 0⟩).data ≠ 0) :
    ((load_block s position (some outb) deser).1 ≠ Err.INVALID_PARAMETER ∧
      load_block s position (some outb) deser =
        (match
          deser
            (readBytes s.file
              (s.blocks_begin_offset +
                  (s.header.blocks.getD (position.get_zxy_index s.header.format.region_size)
                      ⟨0, 0⟩).sector_index * s.header.format.sector_size + 4)
              (get_32 s.file
                (s.blocks_begin_offset +
                  (s.header.blocks.getD (position.get_zxy_index s.header.format.region_size)
                      ⟨0, 0⟩).sector_index * s.header.format.sector_size)))
            { outb with channel_depths := s.header.format.channel_depths } with
        | none =>
            (Err.PARSE_ERROR, some { outb with channel_depths := s.header.format.channel_depths })
        | some b => (Err.OK, some b))) ∧
      ∀ q out, (load_block s q out deser).1 = Err.INVALID_PARAMETER ↔
        (out = none ∨ s.header.blocks.length ≤ q.get_zxy_index s.header.format.region_size) := by
  refine ⟨⟨?_, ?_⟩, ?_⟩
  · unfold load_block
    simp only [hopen, Bool.true_eq_false, if_false, if_neg (Nat.not_le_of_lt hlut)]
    rw [if_neg hpresent, if_neg (show ¬(outb.size ≠ outb.size) by simp)]
    split <;> simp
  · unfold load_block
    simp only [hopen, Bool.true_eq_false, if_false, if_neg (Nat.not_le_of_lt hlut)]
    rw [if_neg hpresent, if_neg (show ¬(outb.size ≠ outb.size) by simp)]
  · intro q out
    match out with
    | none => simp [load_block]
    | some ob =>
        unfold load_block
        simp only [hopen, Bool.true_eq_false, if_false]
        by_cases hq : s.header.blocks.length ≤ q.get_zxy_index s.header.format.region_size
        · simp [hq]
        · rw [if_neg hq]
          simp only [hq, or_false]
          by_cases habs :
              (s.header.blocks.getD (q.get_zxy_index s.header.format.region_size) ⟨0, 0⟩).data = 0
          · rw [if_pos habs]
            simp
          · rw [if_neg habs, if_neg (show ¬(ob.size ≠ ob.size) by simp)]
            split <;> simp

/-- Witness for C10: `testState2` with an output buffer of mismatched
dimensions. -/
theorem load_block_no_size_validation_witness :
    (load_block testState2 ⟨0, 0, 0⟩ (some ⟨⟨5, 5, 5⟩, [], 0⟩) testDeser).1 ≠
      Err.INVALID_PARAMETER :=
  (load_block_no_size_validation testState2 ⟨0, 0, 0⟩ ⟨⟨5, 5, 5⟩, [], 0⟩ testDeser
    (by decide) (by decide) (by decide)).1.1

/-- C7: opening a file image whose first four bytes are not the magic fails
with `PARSE_ERROR` and leaves no open state (not open, empty sector map,
file bytes untouched); and on an open file, an in-range position whose
`BlockInfo` is absent makes `load_block` return `DOES_NOT_EXIST` and
`has_block` return `false`. -/
theorem open_bad_magic_and_absent_block (s0 t : RegionState) (bytes : List Nat)
    (q : Vector3i) (outb : VoxelBlock)
    (deser : List Nat → VoxelBlock → Option VoxelBlock) :
    (s0.fileOpen = false → bytes.take 4 ≠ magicBytes →
      (openFile s0 bytes).1 = Err.PARSE_ERROR ∧
        (openFile s0 bytes).2.fileOpen = false ∧
        (openFile s0 bytes).2.sectors = [] ∧
        (openFile s0 bytes).2.file = bytes) ∧
    (t.fileOpen = true →
      q.get_zxy_index t.header.format.region_size < t.header.blocks.length →
      (t.header.blocks.getD (q.get_zxy_index t.header.format.region_size) ⟨0, 0⟩).data = 0 →
      (load_block t q (some outb) deser).1 = Err.DOES_NOT_EXIST ∧
        has_block t q = false) := by
  constructor
  · intro hclosed hmagic
    have hdr : load_header ({ s0 with sectors := ([] : List Vector3i) }).header.format bytes
        = none := by
      unfold load_header takeExact
      by_cases hlen : 4 ≤ bytes.length
      · simp only [if_pos hlen]
        have : bytes.take 4 ≠ magicBytes := hmagic
        simp [this]
      · simp [hlen]
    simp [openFile, hdr]
  · intro hopen hlut habs
    have habs2 := habs
    simp only [List.getD_eq_getElem?_getD] at habs2
    constructor
    · simp [load_block, hopen, Nat.not_le_of_lt hlut, habs2]
    · simp [has_block, hopen, habs2]

/-- Witness for C7: `testState2Closed` rejecting a bad-magic image, and the
fresh `testState1` reporting its absent block `(0,1,0)`-style cell
`(1,0,0)`. -/
theorem open_bad_magic_and_absent_block_witness :
    (openFile testState2Closed [1, 2, 3, 4]).1 = Err.PARSE_ERROR ∧
      (load_block testState1 ⟨1, 0, 0⟩ (some testBlock) testDeser).1 = Err.DOES_NOT_EXIST := by
  constructor
  · exact ((open_bad_magic_and_absent_block testState2Closed testState1 [1, 2, 3, 4]
      ⟨1, 0, 0⟩ testBlock testDeser).1 (by decide) (by decide)).1
  · exact ((open_bad_magic_and_absent_block testState2Closed testState1 [1, 2, 3, 4]
      ⟨1, 0, 0⟩ testBlock testDeser).2 (by decide) (by decide) (by decide)).1

theorem takeExact_append_of_len (n : Nat) (xs rest : List Nat) (hn : xs.length = n) :
    takeExact n (xs ++ rest) = some (xs, rest) := by
  subst hn
  unfold takeExact
  rw [if_pos (by simp), List.take_left, List.drop_left]

theorem takeExact_all (n : Nat) (xs : List Nat) (hn : xs.length = n) :
    takeExact n xs = some (xs, []) := by
  subst hn
  unfold takeExact
  rw [if_pos (Nat.le_refl _), List.take_length, List.drop_length]

theorem decode32_encode32 (v : Nat) (hv : v < 4294967296) :
    decode32 (encode32 v) = v := by
  simp only [encode32, decode32]
  omega

theorem readDepths_append (depths rest : List Nat)
    (hd : ∀ d ∈ depths, d < DEPTH_COUNT) :
    readDepths depths.length (depths.map (· % 256) ++ rest) = some (depths, rest) := by
  induction depths with
  | nil => rfl
  | cons d t ih =>
      have hdd : d < DEPTH_COUNT := hd d (by simp)
      have hd256 : d % 256 = d := Nat.mod_eq_of_lt (by unfold DEPTH_COUNT at hdd; omega)
      have iht := ih (fun x hx => hd x (by simp [hx]))
      simp only [List.map_cons, List.cons_append, List.length_cons, readDepths,
        List.headD_cons, List.tail_cons, hd256, if_pos hdd, iht]

theorem readColors_append (pal : List Color8) (rest : List Nat)
    (hc : ∀ c ∈ pal, c.r < 256 ∧ c.g < 256 ∧ c.b < 256 ∧ c.a < 256) :
    readColors pal.length (pal.flatMap encodeColor ++ rest) = (pal, rest) := by
  induction pal with
  | nil => rfl
  | cons c t ih =>
      obtain ⟨h1, h2, h3, h4⟩ := hc c (by simp)
      have iht := ih (fun x hx => hc x (by simp [hx]))
      simp only [List.flatMap_cons, encodeColor, List.append_assoc, List.cons_append,
        List.nil_append, List.length_cons, readColors, List.headD_cons, List.tail_cons,
        List.drop_succ_cons, List.drop_zero, iht, Nat.mod_eq_of_lt h1, Nat.mod_eq_of_lt h2,
        Nat.mod_eq_of_lt h3, Nat.mod_eq_of_lt h4]

theorem readBlockInfos_encode (blocks : List BlockInfo)
    (hb : ∀ b ∈ blocks, b.sector_index < 16777216 ∧ b.sector_count < 256) :
    readBlockInfos blocks.length (blocks.flatMap (fun b => encode32 b.data)) = blocks := by
  induction blocks with
  | nil => rfl
  | cons b t ih =>
      obtain ⟨h1, h2⟩ := hb b (by simp)
      have hdata : b.data < 4294967296 := by
        unfold BlockInfo.data
        omega
      have iht := ih (fun x hx => hb x (by simp [hx]))
      have htake : ((b :: t).flatMap (fun x => encode32 x.data)).take 4 = encode32 b.data := by
        simp [encode32]
      have hdrop : ((b :: t).flatMap (fun x => encode32 x.data)).drop 4 =
          t.flatMap (fun x => encode32 x.data) := by
        simp [encode32]
      simp only [List.length_cons, readBlockInfos, htake, hdrop, iht,
        decode32_encode32 b.data hdata]
      have hsi : b.data / 256 = b.sector_index := by
        unfold BlockInfo.data
        omega
      have hsc : b.data % 256 = b.sector_count := by
        unfold BlockInfo.data
        omega
      rw [hsi, hsc]

theorem length_flatMap_encode32 (blocks : List BlockInfo) :
    (blocks.flatMap (fun b => encode32 b.data)).length = 4 * blocks.length := by
  induction blocks with
  | nil => rfl
  | cons b t ih =>
      have h4 : (encode32 b.data).length = 4 := rfl
      rw [List.flatMap_cons, List.length_append, h4, ih, List.length_cons]
      omega

theorem length_flatMap_encodeColor (pal : List Color8) :
    (pal.flatMap encodeColor).length = 4 * pal.length := by
  induction pal with
  | nil => rfl
  | cons c t ih =>
      have h4 : (encodeColor c).length = 4 := rfl
      rw [List.flatMap_cons, List.length_append, h4, ih, List.length_cons]
      omega

theorem parseFormatV3_encodeFormat (fmt0 fmt : Format) (rest : List Nat)
    (hpo2 : fmt.block_size_po2 < 256)
    (hrx : fmt.region_size.x < 256) (hry : fmt.region_size.y < 256)
    (hrz : fmt.region_size.z < 256)
    (hdl : fmt.channel_depths.length = CHANNEL_COUNT)
    (hd : ∀ d ∈ fmt.channel_depths, d < DEPTH_COUNT)
    (hss : fmt.sector_size < 65536)
    (hpal : fmt.has_palette = true → fmt.palette.length = 256)
    (hc : ∀ c ∈ fmt.palette, c.r < 256 ∧ c.g < 256 ∧ c.b < 256 ∧ c.a < 256)
    (hnopal : fmt.has_palette = false → fmt0.palette = fmt.palette) :
    parseFormatV3 fmt0 (encodeFormat fmt ++ rest) = some (fmt, rest) := by
  obtain ⟨po2, ⟨rx, ry, rz⟩, depths, ss, hp, pal⟩ := fmt
  simp only at hpo2 hrx hry hrz hdl hd hss hpal hc hnopal
  cases hp with
  | false =>
      have hpal0 : fmt0.palette = pal := hnopal rfl
      simp only [encodeFormat, parseFormatV3, List.cons_append, List.append_assoc,
        List.nil_append, readU8, readU16, List.headD_cons, List.tail_cons,
        Nat.mod_eq_of_lt hpo2, Nat.mod_eq_of_lt hrx, Nat.mod_eq_of_lt hry,
        Nat.mod_eq_of_lt hrz, Bool.false_eq_true, if_false, ite_false]
      rw [← hdl, readDepths_append depths _ hd]
      simp only [List.cons_append, List.nil_append, List.headD_cons, List.tail_cons,
        List.drop_succ_cons, List.drop_zero, encode16]
      have h16 : ss % 256 + 256 * (ss / 256 % 256) = ss := by omega
      rw [h16, hpal0]
      simp
  | true =>
      have hplen : pal.length = 256 := hpal rfl
      simp only [encodeFormat, parseFormatV3, List.cons_append, List.append_assoc,
        List.nil_append, readU8, readU16, List.headD_cons, List.tail_cons,
        Nat.mod_eq_of_lt hpo2, Nat.mod_eq_of_lt hrx, Nat.mod_eq_of_lt hry,
        Nat.mod_eq_of_lt hrz, if_true, ite_true]
      rw [← hdl, readDepths_append depths _ hd]
      simp only [List.cons_append, List.nil_append, List.headD_cons, List.tail_cons,
        List.drop_succ_cons, List.drop_zero, encode16]
      have h16 : ss % 256 + 256 * (ss / 256 % 256) = ss := by omega
      rw [h16]
      simp only [if_true, ite_true]
      have hrc := readColors_append pal rest hc
      rw [hplen] at hrc
      rw [hrc]

/-- C5: writing a valid current-version header with `save_header` and
reading the produced bytes back with `load_header` returns the header
unchanged, and the resulting `blocks_begin_offset` equals the version-3
header-size formula. -/
theorem header_roundtrip (h : Header) (hv : ValidHeaderV3 h) :
    load_header h.format (encodeHeader h) = some (h, (encodeHeader h).length) ∧
      (encodeHeader h).length = get_header_size_v3 h.format := by
  obtain ⟨hver, hpo2, hrx, hry, hrz, hdl, hd, hss, hpal, hc, hbl, hb⟩ := hv
  have hflen : (h.blocks.flatMap (fun b => encode32 b.data)).length =
      h.format.region_size.volume * 4 := by
    rw [length_flatMap_encode32, hbl]
    omega
  constructor
  · unfold load_header encodeHeader
    simp only [List.append_assoc]
    rw [takeExact_append_of_len 4 magicBytes _ rfl]
    simp only [ne_eq, not_true_eq_false, if_false, ite_false, readU8, List.cons_append,
      List.nil_append, List.headD_cons, List.tail_cons]
    rw [hver]
    have h3 : (3 : Nat) % 256 = 3 := by norm_num
    unfold FORMAT_VERSION
    rw [h3, if_pos rfl]
    rw [parseFormatV3_encodeFormat h.format h.format _ hpo2 hrx hry hrz hdl hd hss hpal hc
      (fun _ => rfl)]
    have ht := takeExact_all _ _ hflen
    have hrb := readBlockInfos_encode h.blocks hb
    rw [hbl] at hrb
    simp only [ht, hrb, List.length_nil, Nat.sub_zero]
    have hh : h = ⟨3, h.format, h.blocks⟩ := by
      cases h
      simp only [Header.mk.injEq, and_true]
      exact hver
    rw [← hh]
  · have hEF : (encodeFormat h.format).length =
        FIXED_HEADER_DATA_SIZE + (if h.format.has_palette then PALETTE_SIZE_IN_BYTES else 0) := by
      unfold encodeFormat FIXED_HEADER_DATA_SIZE PALETTE_SIZE_IN_BYTES CHANNEL_COUNT encode16
      cases hp : h.format.has_palette with
      | false =>
          simp only [hp, Bool.false_eq_true, if_false, ite_false, List.length_append,
            List.length_cons, List.length_nil, List.length_map]
          rw [hdl]
          unfold CHANNEL_COUNT
          omega
      | true =>
          have hplen : h.format.palette.length = 256 := hpal hp
          simp only [hp, if_true, ite_true, List.length_append, List.length_cons,
            List.length_nil, List.length_map, length_flatMap_encodeColor, hplen]
          rw [hdl]
          unfold CHANNEL_COUNT
          omega
    have hEH : (encodeHeader h).length =
        5 + (encodeFormat h.format).length + (h.blocks.flatMap fun b => encode32 b.data).length := by
      unfold encodeHeader magicBytes
      simp only [List.length_append, List.length_cons, List.length_nil]
      try omega
    rw [hEH, hEF, hflen]
    unfold get_header_size_v3 MAGIC_AND_VERSION_SIZE
    omega

theorem storeBytes_length (f : List Nat) (ofs : Nat) (d : List Nat) (h : ofs ≤ f.length) :
    (storeBytes f ofs d).length = max f.length (ofs + d.length) := by
  unfold storeBytes
  simp only [List.length_append, List.length_take, List.length_replicate, List.length_drop]
  omega

theorem storeBytes_getElem (f : List Nat) (ofs : Nat) (d : List Nat) (p : Nat)
    (h : ofs ≤ f.length) :
    (storeBytes f ofs d)[p]? =
      if p < ofs then f[p]?
      else if p < ofs + d.length then d[p - ofs]?
      else f[p]? := by
  unfold storeBytes
  have hofs : ofs - f.length = 0 := by omega
  rw [hofs, List.replicate_zero, List.append_nil, List.append_assoc]
  have hlt : (f.take ofs).length = ofs := by
    rw [List.length_take]
    omega
  rw [List.getElem?_append, hlt]
  by_cases h1 : p < ofs
  · rw [if_pos h1, if_pos h1, List.getElem?_take, if_pos h1]
  · rw [if_neg h1, if_neg h1, List.getElem?_append]
    by_cases h2 : p < ofs + d.length
    · rw [if_pos (by omega : p - ofs < d.length), if_pos h2]
    · rw [if_neg (by omega : ¬ p - ofs < d.length), if_neg h2, List.getElem?_drop]
      have : ofs + d.length + (p - ofs - d.length) = p := by omega
      rw [this]

theorem readBytes_getElem (f : List Nat) (ofs n j : Nat) :
    (readBytes f ofs n)[j]? = if j < n then f[ofs + j]? else none := by
  unfold readBytes
  rw [List.getElem?_take]
  by_cases hj : j < n
  · rw [if_pos hj, if_pos hj, List.getElem?_drop]
  · rw [if_neg hj, if_neg hj]

theorem readBytes_length (f : List Nat) (ofs n : Nat) :
    (readBytes f ofs n).length = min n (f.length - ofs) := by
  unfold readBytes
  simp [List.length_take, List.length_drop]

theorem readBytes_congr (f1 f2 : List Nat) (o1 o2 n : Nat)
    (h : ∀ j, j < n → f1[o1 + j]? = f2[o2 + j]?) :
    readBytes f1 o1 n = readBytes f2 o2 n := by
  apply List.ext_getElem?
  intro j
  rw [readBytes_getElem, readBytes_getElem]
  by_cases hj : j < n
  · rw [if_pos hj, if_pos hj, h j hj]
  · rw [if_neg hj, if_neg hj]

theorem readBytes_storeBytes_self (f : List Nat) (ofs : Nat) (d : List Nat)
    (h : ofs ≤ f.length) :
    readBytes (storeBytes f ofs d) ofs d.length = d := by
  apply List.ext_getElem?
  intro j
  rw [readBytes_getElem]
  by_cases hj : j < d.length
  · rw [if_pos hj, storeBytes_getElem _ _ _ _ h, if_neg (by omega), if_pos (by omega)]
    have : ofs + j - ofs = j := by omega
    rw [this]
  · rw [if_neg hj, eq_comm, List.getElem?_eq_none]
    omega

theorem readBytes_storeBytes_before (f : List Nat) (ofs2 : Nat) (d : List Nat)
    (ofs n : Nat) (h2 : ofs2 ≤ f.length) (h1 : ofs + n ≤ ofs2) :
    readBytes (storeBytes f ofs2 d) ofs n = readBytes f ofs n := by
  apply readBytes_congr
  intro j hj
  rw [storeBytes_getElem _ _ _ _ h2, if_pos (by omega)]

theorem copyRun_length (file : List Nat) (src dst ss m : Nat) (hd : dst ≤ src)
    (hss : 0 < ss) (hlen : src + m * ss ≤ file.length) :
    (copyRun file src dst ss m).length = file.length := by
  induction m generalizing file src dst with
  | zero => rfl
  | succ k ih =>
      rw [copyRun]
      have hmul : (k + 1) * ss = ss + k * ss := by ring
      have hfull : src + ss + k * ss ≤ file.length := by omega
      have hr : (readBytes file src ss).length = ss := by
        rw [readBytes_length]
        omega
      have hst : (storeBytes file dst (readBytes file src ss)).length = file.length := by
        rw [storeBytes_length _ _ _ (by omega), hr]
        omega
      rw [ih (storeBytes file dst (readBytes file src ss)) (src + ss) (dst + ss)
        (by omega) (by rw [hst]; omega)]
      exact hst

theorem copyRun_getElem (file : List Nat) (src dst ss n m : Nat) (hss : 0 < ss)
    (hsrc : dst + n * ss = src) (hn : 1 ≤ n)
    (hlen : src + m * ss ≤ file.length) (p : Nat) :
    (copyRun file src dst ss m)[p]? =
      if dst ≤ p ∧ p < dst + m * ss then file[p + n * ss]? else file[p]? := by
  induction m generalizing file src dst with
  | zero =>
      rw [copyRun, if_neg (by omega)]
  | succ k ih =>
      rw [copyRun]
      have hmul : (k + 1) * ss = ss + k * ss := by ring
      have hfull : src + ss + k * ss ≤ file.length := by omega
      have hr : (readBytes file src ss).length = ss := by
        rw [readBytes_length]
        omega
      have hst : (storeBytes file dst (readBytes file src ss)).length = file.length := by
        rw [storeBytes_length _ _ _ (by omega), hr]
        omega
      rw [ih (storeBytes file dst (readBytes file src ss)) (src + ss) (dst + ss)
        (by omega) (by rw [hst]; omega)]
      by_cases hA : dst + ss ≤ p ∧ p < dst + ss + k * ss
      · have e1 : (storeBytes file dst (readBytes file src ss))[p + n * ss]? =
            file[p + n * ss]? := by
          rw [storeBytes_getElem _ _ _ _ (by omega), hr, if_neg (by omega), if_neg (by omega)]
        rw [if_pos hA, e1, if_pos (by omega)]
      · rw [if_neg hA]
        by_cases hB : p < dst
        · have e1 : (storeBytes file dst (readBytes file src ss))[p]? = file[p]? := by
            rw [storeBytes_getElem _ _ _ _ (by omega), if_pos hB]
          rw [e1, if_neg (by omega)]
        · by_cases hC : p < dst + ss
          · have e1 : (storeBytes file dst (readBytes file src ss))[p]? =
                file[p + n * ss]? := by
              rw [storeBytes_getElem _ _ _ _ (by omega), hr, if_neg (by omega),
                if_pos (by omega), readBytes_getElem, if_pos (by omega)]
              have e2 : src + (p - dst) = p + n * ss := by omega
              rw [e2]
            rw [e1, if_pos (by omega)]
          · have e1 : (storeBytes file dst (readBytes file src ss))[p]? = file[p]? := by
              rw [storeBytes_getElem _ _ _ _ (by omega), hr, if_neg (by omega),
                if_neg (by omega)]
            rw [e1, if_neg (by omega)]

theorem getD_set_self {α : Type} (l : List α) (i : Nat) (v d : α) (h : i < l.length) :
    (l.set i v).getD i d = v := by
  rw [List.getD_eq_getElem?_getD, List.getElem?_set, if_pos rfl, if_pos h]
  rfl

theorem getD_set_other {α : Type} (l : List α) (i j : Nat) (v d : α) (h : i ≠ j) :
    (l.set i v).getD j d = l.getD j d := by
  rw [List.getD_eq_getElem?_getD, List.getElem?_set, if_neg h, ← List.getD_eq_getElem?_getD]

theorem getD_append_lo {α : Type} (l1 l2 : List α) (j : Nat) (d : α) (h : j < l1.length) :
    (l1 ++ l2).getD j d = l1.getD j d := by
  rw [List.getD_append _ _ _ _ h]

theorem getD_append_hi {α : Type} (l1 l2 : List α) (j : Nat) (d : α) :
    (l1 ++ l2).getD (l1.length + j) d = l2.getD j d := by
  rw [List.getD_eq_getElem?_getD, List.getElem?_append, if_neg (by omega)]
  have h1 : l1.length + j - l1.length = j := by omega
  rw [h1, ← List.getD_eq_getElem?_getD]

theorem getD_replicate {α : Type} (n j : Nat) (v d : α) (h : j < n) :
    (List.replicate n v).getD j d = v := by
  rw [List.getD_eq_getElem?_getD, List.getElem?_replicate, if_pos h]
  rfl

theorem set_getD_self {α : Type} (l : List α) (i : Nat) (d : α) (h : i < l.length) :
    l.set i (l.getD i d) = l := by
  apply List.ext_getElem?
  intro j
  rw [List.getElem?_set]
  by_cases hj : i = j
  · subst hj
    rw [if_pos rfl, if_pos h, List.getD_eq_getElem?_getD, List.getElem?_eq_getElem h]
    rfl
  · rw [if_neg hj]

theorem pad_exact (ss w L : Nat) (hss : 0 < ss) (hw : 1 ≤ w) :
    w + padAmount ss (L * ss + w) = get_sector_count_from_bytes ss w * ss := by
  unfold padAmount get_sector_count_from_bytes
  rw [if_neg (by omega)]
  have h1 : (L * ss + w - 1) % ss = (w - 1) % ss := by
    have e : L * ss + w - 1 = (w - 1) + L * ss := by omega
    rw [e, Nat.add_mul_mod_self_right]
  rw [h1]
  have h2 := Nat.div_add_mod (w - 1) ss
  have h3 : (w - 1) % ss < ss := Nat.mod_lt _ hss
  have h4 : ((w - 1) / ss + 1) * ss = ss * ((w - 1) / ss) + ss := by ring
  omega

theorem getD_map_of_lt {α : Type} (f : α → α) (l : List α) (j : Nat) (d : α)
    (h : j < l.length) :
    (l.map f).getD j d = f (l.getD j d) := by
  rw [List.getD_eq_getElem?_getD, List.getElem?_map, List.getElem?_eq_getElem h]
  rw [List.getD_eq_getElem?_getD, List.getElem?_eq_getElem h]
  rfl

theorem getD_take_append_drop_lo {α : Type} (l : List α) (a b x : Nat) (d : α)
    (hx : x < a) (hab : a ≤ l.length) :
    (l.take a ++ l.drop b).getD x d = l.getD x d := by
  have hl : (l.take a).length = a := by
    rw [List.length_take]
    omega
  rw [List.getD_eq_getElem?_getD, List.getElem?_append, hl, if_pos hx,
    List.getElem?_take, if_pos hx, ← List.getD_eq_getElem?_getD]

theorem getD_take_append_drop_hi {α : Type} (l : List α) (a b x : Nat) (d : α)
    (hab : a ≤ l.length) (hx : a ≤ x) :
    (l.take a ++ l.drop b).getD x d = l.getD (b + (x - a)) d := by
  have hl : (l.take a).length = a := by
    rw [List.length_take]
    omega
  rw [List.getD_eq_getElem?_getD, List.getElem?_append, hl, if_neg (by omega),
    List.getElem?_drop, ← List.getD_eq_getElem?_getD]

theorem length_take_append_drop {α : Type} (l : List α) (a b : Nat)
    (hab : a ≤ l.length) (hb : b ≤ l.length) :
    (l.take a ++ l.drop b).length = a + (l.length - b) := by
  rw [List.length_append, List.length_take, List.length_drop]
  omega

theorem inv_count_pos (s : RegionState) (hinv : InvOpen s) (i : Nat)
    (hi : i < s.header.blocks.length)
    (hp : (s.header.blocks.getD i ⟨0, 0⟩).data ≠ 0) :
    1 ≤ (s.header.blocks.getD i ⟨0, 0⟩).sector_count :=
  (hinv.2.2.2.1 i hi hp).1

theorem inv_owned (s : RegionState) (hinv : InvOpen s) (i : Nat)
    (hi : i < s.header.blocks.length)
    (hp : (s.header.blocks.getD i ⟨0, 0⟩).data ≠ 0) (j : Nat)
    (hj : j < (s.header.blocks.getD i ⟨0, 0⟩).sector_count) :
    (s.header.blocks.getD i ⟨0, 0⟩).sector_index + j < s.sectors.length ∧
      s.sectors.getD ((s.header.blocks.getD i ⟨0, 0⟩).sector_index + j) ⟨0, 0, 0⟩ =
        Vector3i.from_zxy_index i s.header.format.region_size :=
  (hinv.2.2.2.1 i hi hp).2 j hj

theorem inv_range_le (s : RegionState) (hinv : InvOpen s) (i : Nat)
    (hi : i < s.header.blocks.length)
    (hp : (s.header.blocks.getD i ⟨0, 0⟩).data ≠ 0) :
    (s.header.blocks.getD i ⟨0, 0⟩).sector_index +
      (s.header.blocks.getD i ⟨0, 0⟩).sector_count ≤ s.sectors.length := by
  have h1 := inv_count_pos s hinv i hi hp
  have h2 := (inv_owned s hinv i hi hp ((s.header.blocks.getD i ⟨0, 0⟩).sector_count - 1)
    (by omega)).1
  omega

theorem inv_disjoint (s : RegionState) (hinv : InvOpen s) (i j : Nat)
    (hi : i < s.header.blocks.length) (hj : j < s.header.blocks.length) (hne : i ≠ j)
    (hpi : (s.header.blocks.getD i ⟨0, 0⟩).data ≠ 0)
    (hpj : (s.header.blocks.getD j ⟨0, 0⟩).data ≠ 0) :
    (s.header.blocks.getD i ⟨0, 0⟩).sector_index +
        (s.header.blocks.getD i ⟨0, 0⟩).sector_count ≤
      (s.header.blocks.getD j ⟨0, 0⟩).sector_index ∨
    (s.header.blocks.getD j ⟨0, 0⟩).sector_index +
        (s.header.blocks.getD j ⟨0, 0⟩).sector_count ≤
      (s.header.blocks.getD i ⟨0, 0⟩).sector_index := by
  by_contra hcon
  push_neg at hcon
  obtain ⟨hc1, hc2⟩ := hcon
  have hsci := inv_count_pos s hinv i hi hpi
  have hscj := inv_count_pos s hinv j hj hpj
  have hx1 : (s.header.blocks.getD i ⟨0, 0⟩).sector_index ≤
      max (s.header.blocks.getD i ⟨0, 0⟩).sector_index
        (s.header.blocks.getD j ⟨0, 0⟩).sector_index := le_max_left _ _
  have hx2 : (s.header.blocks.getD j ⟨0, 0⟩).sector_index ≤
      max (s.header.blocks.getD i ⟨0, 0⟩).sector_index
        (s.header.blocks.getD j ⟨0, 0⟩).sector_index := le_max_right _ _
  have hx3 : max (s.header.blocks.getD i ⟨0, 0⟩).sector_index
      (s.header.blocks.getD j ⟨0, 0⟩).sector_index <
      (s.header.blocks.getD i ⟨0, 0⟩).sector_index +
        (s.header.blocks.getD i ⟨0, 0⟩).sector_count := by
    rcases Nat.le_total (s.header.blocks.getD i ⟨0, 0⟩).sector_index
        (s.header.blocks.getD j ⟨0, 0⟩).sector_index with h | h
    · rw [Nat.max_eq_right h]
      omega
    · rw [Nat.max_eq_left h]
      omega
  have hx4 : max (s.header.blocks.getD i ⟨0, 0⟩).sector_index
      (s.header.blocks.getD j ⟨0, 0⟩).sector_index <
      (s.header.blocks.getD j ⟨0, 0⟩).sector_index +
        (s.header.blocks.getD j ⟨0, 0⟩).sector_count := by
    rcases Nat.le_total (s.header.blocks.getD i ⟨0, 0⟩).sector_index
        (s.header.blocks.getD j ⟨0, 0⟩).sector_index with h | h
    · rw [Nat.max_eq_right h]
      omega
    · rw [Nat.max_eq_left h]
      omega
  have hvi := (inv_owned s hinv i hi hpi
    (max (s.header.blocks.getD i ⟨0, 0⟩).sector_index
        (s.header.blocks.getD j ⟨0, 0⟩).sector_index -
      (s.header.blocks.getD i ⟨0, 0⟩).sector_index) (by omega)).2
  have hvj := (inv_owned s hinv j hj hpj
    (max (s.header.blocks.getD i ⟨0, 0⟩).sector_index
        (s.header.blocks.getD j ⟨0, 0⟩).sector_index -
      (s.header.blocks.getD j ⟨0, 0⟩).sector_index) (by omega)).2
  rw [Nat.add_sub_cancel' hx1] at hvi
  rw [Nat.add_sub_cancel' hx2] at hvj
  have heq : Vector3i.from_zxy_index i s.header.format.region_size =
      Vector3i.from_zxy_index j s.header.format.region_size := by
    rw [← hvi, ← hvj]
  have hvol := hinv.2.2.1
  exact hne (from_zxy_injective _ _ _ (by omega) (by omega) heq)

theorem sumCounts_eq_sum_range (blocks : List BlockInfo) :
    sumCounts blocks = ∑ i ∈ Finset.range blocks.length,
      (if (blocks.getD i ⟨0, 0⟩).data ≠ 0 then (blocks.getD i ⟨0, 0⟩).sector_count else 0) := by
  induction blocks with
  | nil => rfl
  | cons b t ih =>
      rw [sumCounts, List.length_cons, Finset.sum_range_succ', ih]
      have h0 : ((b :: t).getD 0 ⟨0, 0⟩) = b := rfl
      have hsum : (∑ k ∈ Finset.range t.length,
          if ((b :: t).getD (k + 1) ⟨0, 0⟩).data ≠ 0 then
            ((b :: t).getD (k + 1) ⟨0, 0⟩).sector_count else 0) =
          ∑ i ∈ Finset.range t.length,
            if (t.getD i ⟨0, 0⟩).data ≠ 0 then (t.getD i ⟨0, 0⟩).sector_count else 0 := by
        apply Finset.sum_congr rfl
        intro k _
        rfl
      rw [hsum, h0]
      omega

theorem data_ne_zero_of_count (b : BlockInfo) (h : 1 ≤ b.sector_count) : b.data ≠ 0 := by
  unfold BlockInfo.data
  omega

theorem sumCounts_set (blocks : List BlockInfo) (i : Nat) (v : BlockInfo)
    (hi : i < blocks.length) :
    sumCounts (blocks.set i v) +
        (if (blocks.getD i ⟨0, 0⟩).data ≠ 0 then (blocks.getD i ⟨0, 0⟩).sector_count else 0) =
      sumCounts blocks + (if v.data ≠ 0 then v.sector_count else 0) := by
  rw [sumCounts_eq_sum_range, sumCounts_eq_sum_range, List.length_set]
  have hmem : i ∈ Finset.range blocks.length := Finset.mem_range.mpr hi
  rw [Finset.sum_eq_sum_diff_singleton_add hmem, Finset.sum_eq_sum_diff_singleton_add hmem]
  have hcong : (∑ k ∈ Finset.range blocks.length \ {i},
      if ((blocks.set i v).getD k ⟨0, 0⟩).data ≠ 0 then
        ((blocks.set i v).getD k ⟨0, 0⟩).sector_count else 0) =
      ∑ k ∈ Finset.range blocks.length \ {i},
        if (blocks.getD k ⟨0, 0⟩).data ≠ 0 then (blocks.getD k ⟨0, 0⟩).sector_count else 0 := by
    apply Finset.sum_congr rfl
    intro k hk
    rw [Finset.mem_sdiff, Finset.mem_singleton] at hk
    rw [getD_set_other _ _ _ _ _ (fun h => hk.2 h.symm)]
  rw [hcong, getD_set_self _ _ _ _ hi]
  omega

theorem table_gapless (blocks : List BlockInfo) (L : Nat)
    (hlen : L = ∑ i ∈ Finset.range blocks.length,
      (if (blocks.getD i ⟨0, 0⟩).data ≠ 0 then (blocks.getD i ⟨0, 0⟩).sector_count else 0))
    (hrange : ∀ i, i < blocks.length → (blocks.getD i ⟨0, 0⟩).data ≠ 0 →
      (blocks.getD i ⟨0, 0⟩).sector_index + (blocks.getD i ⟨0, 0⟩).sector_count ≤ L)
    (hdisj : ∀ i j, i < blocks.length → j < blocks.length → i ≠ j →
      (blocks.getD i ⟨0, 0⟩).data ≠ 0 → (blocks.getD j ⟨0, 0⟩).data ≠ 0 →
      (blocks.getD i ⟨0, 0⟩).sector_index + (blocks.getD i ⟨0, 0⟩).sector_count ≤
        (blocks.getD j ⟨0, 0⟩).sector_index ∨
      (blocks.getD j ⟨0, 0⟩).sector_index + (blocks.getD j ⟨0, 0⟩).sector_count ≤
        (blocks.getD i ⟨0, 0⟩).sector_index)
    (x : Nat) (hx : x < L) :
    ∃ i, i < blocks.length ∧ (blocks.getD i ⟨0, 0⟩).data ≠ 0 ∧
      (blocks.getD i ⟨0, 0⟩).sector_index ≤ x ∧
      x < (blocks.getD i ⟨0, 0⟩).sector_index + (blocks.getD i ⟨0, 0⟩).sector_count := by
  classical
  set T : Nat → Finset Nat := fun i =>
    if (blocks.getD i ⟨0, 0⟩).data ≠ 0 then
      Finset.Ico (blocks.getD i ⟨0, 0⟩).sector_index
        ((blocks.getD i ⟨0, 0⟩).sector_index + (blocks.getD i ⟨0, 0⟩).sector_count)
    else ∅ with hT
  have hsub : (Finset.range blocks.length).biUnion T ⊆ Finset.range L := by
    intro y hy
    rw [Finset.mem_biUnion] at hy
    obtain ⟨i, hi, hyT⟩ := hy
    rw [Finset.mem_range] at hi
    rw [hT] at hyT
    dsimp only at hyT
    by_cases hp : (blocks.getD i ⟨0, 0⟩).data ≠ 0
    · rw [if_pos hp, Finset.mem_Ico] at hyT
      have := hrange i hi hp
      rw [Finset.mem_range]
      omega
    · rw [if_neg hp] at hyT
      exact absurd hyT (Finset.not_mem_empty y)
  have hdisjT : ∀ i ∈ Finset.range blocks.length, ∀ j ∈ Finset.range blocks.length,
      i ≠ j → Disjoint (T i) (T j) := by
    intro i hi j hj hne
    rw [Finset.mem_range] at hi hj
    rw [hT]
    dsimp only
    by_cases hpi : (blocks.getD i ⟨0, 0⟩).data ≠ 0
    · by_cases hpj : (blocks.getD j ⟨0, 0⟩).data ≠ 0
      · rw [if_pos hpi, if_pos hpj, Finset.disjoint_left]
        intro a ha ha2
        rw [Finset.mem_Ico] at ha ha2
        have := hdisj i j hi hj hne hpi hpj
        omega
      · rw [if_neg hpj]
        exact Finset.disjoint_empty_right _
    · rw [if_neg hpi]
      exact Finset.disjoint_empty_left _
  have hcard : ((Finset.range blocks.length).biUnion T).card =
      ∑ i ∈ Finset.range blocks.length, (T i).card := Finset.card_biUnion hdisjT
  have hTcard : ∀ i, (T i).card =
      (if (blocks.getD i ⟨0, 0⟩).data ≠ 0 then (blocks.getD i ⟨0, 0⟩).sector_count else 0) := by
    intro i
    rw [hT]
    dsimp only
    by_cases hp : (blocks.getD i ⟨0, 0⟩).data ≠ 0
    · rw [if_pos hp, if_pos hp, Nat.card_Ico]
      omega
    · rw [if_neg hp, if_neg hp, Finset.card_empty]
  have hcard2 : ((Finset.range blocks.length).biUnion T).card = L := by
    rw [hcard, hlen]
    exact Finset.sum_congr rfl (fun i _ => hTcard i)
  have heq : (Finset.range blocks.length).biUnion T = Finset.range L :=
    Finset.eq_of_subset_of_card_le hsub (by rw [hcard2, Finset.card_range])
  have hxmem : x ∈ (Finset.range blocks.length).biUnion T := by
    rw [heq, Finset.mem_range]
    exact hx
  rw [Finset.mem_biUnion] at hxmem
  obtain ⟨i, hi, hxT⟩ := hxmem
  rw [Finset.mem_range] at hi
  rw [hT] at hxT
  dsimp only at hxT
  by_cases hp : (blocks.getD i ⟨0, 0⟩).data ≠ 0
  · rw [if_pos hp, Finset.mem_Ico] at hxT
    exact ⟨i, hi, hp, hxT.1, hxT.2⟩
  · rw [if_neg hp] at hxT
    exact absurd hxT (Finset.not_mem_empty x)

theorem inv_gapless (s : RegionState) (hinv : InvOpen s) (x : Nat)
    (hx : x < s.sectors.length) :
    ∃ i, i < s.header.blocks.length ∧ (s.header.blocks.getD i ⟨0, 0⟩).data ≠ 0 ∧
      (s.header.blocks.getD i ⟨0, 0⟩).sector_index ≤ x ∧
      x < (s.header.blocks.getD i ⟨0, 0⟩).sector_index +
        (s.header.blocks.getD i ⟨0, 0⟩).sector_count :=
  table_gapless s.header.blocks s.sectors.length
    (by rw [hinv.2.2.2.2.1, sumCounts_eq_sum_range])
    (fun i hi hp => inv_range_le s hinv i hi hp)
    (fun i j hi hj hne hpi hpj => inv_disjoint s hinv i j hi hj hne hpi hpj)
    x hx

theorem remove_sectors_spec (s : RegionState) (pos : Vector3i) (n : Nat)
    (bidx : Nat) (bi : BlockInfo)
    (hbidx_def : bidx = pos.get_zxy_index s.header.format.region_size)
    (hbi_def : bi = s.header.blocks.getD bidx ⟨0, 0⟩)
    (hinv : InvOpen s)
    (hlt : bidx < s.header.blocks.length)
    (hpres : bi.data ≠ 0)
    (hn1 : 1 ≤ n) (hn2 : n ≤ bi.sector_count) :
    (remove_sectors_from_block s pos n).header.format = s.header.format ∧
    (remove_sectors_from_block s pos n).blocks_begin_offset = s.blocks_begin_offset ∧
    (remove_sectors_from_block s pos n).header.version = s.header.version ∧
    (remove_sectors_from_block s pos n).fileOpen = s.fileOpen ∧
    (remove_sectors_from_block s pos n).sectors =
      s.sectors.take (bi.sector_index + bi.sector_count - n) ++
        s.sectors.drop (bi.sector_index + bi.sector_count) ∧
    (remove_sectors_from_block s pos n).sectors.length = s.sectors.length - n ∧
    (remove_sectors_from_block s pos n).header.blocks.length = s.header.blocks.length ∧
    (remove_sectors_from_block s pos n).header.blocks.getD bidx ⟨0, 0⟩ =
      (if n < bi.sector_count then BlockInfo.mk bi.sector_index (bi.sector_count - n)
       else BlockInfo.mk 0 0) ∧
    (∀ i, i < s.header.blocks.length → i ≠ bidx →
      (remove_sectors_from_block s pos n).header.blocks.getD i ⟨0, 0⟩ =
        (if (s.header.blocks.getD i ⟨0, 0⟩).data ≠ 0 ∧
            bi.sector_index < (s.header.blocks.getD i ⟨0, 0⟩).sector_index
         then BlockInfo.mk ((s.header.blocks.getD i ⟨0, 0⟩).sector_index - n)
                (s.header.blocks.getD i ⟨0, 0⟩).sector_count
         else s.header.blocks.getD i ⟨0, 0⟩)) ∧
    (remove_sectors_from_block s pos n).file.length = s.file.length ∧
    (∀ k, bi.sector_index + bi.sector_count - n ≤ k → k + n < s.sectors.length →
      readBytes (remove_sectors_from_block s pos n).file
          (s.blocks_begin_offset + k * s.header.format.sector_size)
          s.header.format.sector_size =
        readBytes s.file
          (s.blocks_begin_offset + (k + n) * s.header.format.sector_size)
          s.header.format.sector_size) ∧
    (∀ k, k < bi.sector_index + bi.sector_count - n →
      readBytes (remove_sectors_from_block s pos n).file
          (s.blocks_begin_offset + k * s.header.format.sector_size)
          s.header.format.sector_size =
        readBytes s.file
          (s.blocks_begin_offset + k * s.header.format.sector_size)
          s.header.format.sector_size) := by
  have hssp : 0 < s.header.format.sector_size := hinv.2.1
  have hvol : s.header.blocks.length = s.header.format.region_size.volume := hinv.2.2.1
  have hlen : s.sectors.length = sumCounts s.header.blocks := hinv.2.2.2.2.1
  have hfile : s.blocks_begin_offset + s.sectors.length * s.header.format.sector_size ≤
      s.file.length := hinv.2.2.2.2.2
  have hsc1 : 1 ≤ bi.sector_count := by
    rw [hbi_def]
    exact inv_count_pos s hinv bidx hlt (hbi_def ▸ hpres)
  have hrange : bi.sector_index + bi.sector_count ≤ s.sectors.length := by
    rw [hbi_def]
    exact inv_range_le s hinv bidx hlt (hbi_def ▸ hpres)
  -- abbreviations used by the definition of remove_sectors_from_block
  have hsec : (remove_sectors_from_block s pos n).sectors =
      s.sectors.take (bi.sector_index + bi.sector_count - n) ++
        s.sectors.drop (bi.sector_index + bi.sector_count) := by
    rw [hbi_def, hbidx_def]
    rfl
  have hseclen : (remove_sectors_from_block s pos n).sectors.length =
      s.sectors.length - n := by
    rw [hsec, length_take_append_drop _ _ _ (by omega) (by omega)]
    omega
  -- the guard of the sector-index shift
  have hguard_len :
      (s.sectors.take (bi.sector_index + bi.sector_count - n) ++
        s.sectors.drop (bi.sector_index + bi.sector_count)).length =
      s.sectors.length - n := by
    rw [length_take_append_drop _ _ _ (by omega) (by omega)]
    omega
  have hblocks0 : (remove_sectors_from_block s pos n).header.blocks =
      (if bi.sector_index <
          (s.sectors.take (bi.sector_index + bi.sector_count - n) ++
            s.sectors.drop (bi.sector_index + bi.sector_count)).length then
        (s.header.blocks.set bidx
          (if n < bi.sector_count then BlockInfo.mk bi.sector_index (bi.sector_count - n)
           else BlockInfo.mk 0 0)).map (fun b =>
          if b.data ≠ 0 ∧ bi.sector_index < b.sector_index
          then BlockInfo.mk (b.sector_index - n) b.sector_count
          else b)
      else
        s.header.blocks.set bidx
          (if n < bi.sector_count then BlockInfo.mk bi.sector_index (bi.sector_count - n)
           else BlockInfo.mk 0 0)) := by
    rw [hbi_def, hbidx_def]
    rfl
  have hblocks : (remove_sectors_from_block s pos n).header.blocks =
      (if bi.sector_index < s.sectors.length - n then
        (s.header.blocks.set bidx
          (if n < bi.sector_count then BlockInfo.mk bi.sector_index (bi.sector_count - n)
           else BlockInfo.mk 0 0)).map (fun b =>
          if b.data ≠ 0 ∧ bi.sector_index < b.sector_index
          then BlockInfo.mk (b.sector_index - n) b.sector_count
          else b)
      else
        s.header.blocks.set bidx
          (if n < bi.sector_count then BlockInfo.mk bi.sector_index (bi.sector_count - n)
           else BlockInfo.mk 0 0)) := by
    rw [hblocks0, hguard_len]
  have hblen : (remove_sectors_from_block s pos n).header.blocks.length =
      s.header.blocks.length := by
    rw [hblocks]
    by_cases hg : bi.sector_index < s.sectors.length - n
    · rw [if_pos hg, List.length_map, List.length_set]
    · rw [if_neg hg, List.length_set]
  have hE : (remove_sectors_from_block s pos n).header.blocks.getD bidx ⟨0, 0⟩ =
      (if n < bi.sector_count then BlockInfo.mk bi.sector_index (bi.sector_count - n)
       else BlockInfo.mk 0 0) := by
    rw [hblocks]
    by_cases hg : bi.sector_index < s.sectors.length - n
    · rw [if_pos hg, getD_map_of_lt _ _ _ _ (by rw [List.length_set]; exact hlt),
        getD_set_self _ _ _ _ hlt]
      by_cases hc : n < bi.sector_count
      · rw [if_pos hc, if_neg (by simp)]
      · rw [if_neg hc, if_neg (by unfold BlockInfo.data; simp)]
    · rw [if_neg hg, getD_set_self _ _ _ _ hlt]
  have hF : ∀ i, i < s.header.blocks.length → i ≠ bidx →
      (remove_sectors_from_block s pos n).header.blocks.getD i ⟨0, 0⟩ =
        (if (s.header.blocks.getD i ⟨0, 0⟩).data ≠ 0 ∧
            bi.sector_index < (s.header.blocks.getD i ⟨0, 0⟩).sector_index
         then BlockInfo.mk ((s.header.blocks.getD i ⟨0, 0⟩).sector_index - n)
                (s.header.blocks.getD i ⟨0, 0⟩).sector_count
         else s.header.blocks.getD i ⟨0, 0⟩) := by
    intro i hi hne
    rw [hblocks]
    by_cases hg : bi.sector_index < s.sectors.length - n
    · rw [if_pos hg, getD_map_of_lt _ _ _ _ (by rw [List.length_set]; exact hi),
        getD_set_other _ _ _ _ _ (fun h => hne h.symm)]
    · rw [if_neg hg, getD_set_other _ _ _ _ _ (fun h => hne h.symm)]
      rw [if_neg]
      intro hcon
      obtain ⟨hpi, hgt⟩ := hcon
      have hd := inv_disjoint s hinv i bidx hi hlt hne hpi (hbi_def ▸ hpres)
      rw [← hbi_def] at hd
      have hsci := inv_count_pos s hinv i hi hpi
      have hri := inv_range_le s hinv i hi hpi
      rcases hd with hd | hd
      · omega
      · omega
  -- file facts
  have hm : (s.blocks_begin_offset + s.sectors.length * s.header.format.sector_size -
      (s.blocks_begin_offset +
        (bi.sector_index + bi.sector_count) * s.header.format.sector_size)) /
      s.header.format.sector_size =
      s.sectors.length - (bi.sector_index + bi.sector_count) := by
    have h1 : s.blocks_begin_offset + s.sectors.length * s.header.format.sector_size -
        (s.blocks_begin_offset +
          (bi.sector_index + bi.sector_count) * s.header.format.sector_size) =
        (s.sectors.length - (bi.sector_index + bi.sector_count)) *
          s.header.format.sector_size := by
      rw [Nat.sub_mul]
      have := Nat.mul_le_mul_right s.header.format.sector_size hrange
      omega
    rw [h1, Nat.mul_div_cancel _ hssp]
  have hdst : (s.blocks_begin_offset +
        (bi.sector_index + bi.sector_count) * s.header.format.sector_size -
        n * s.header.format.sector_size) + n * s.header.format.sector_size =
      s.blocks_begin_offset +
        (bi.sector_index + bi.sector_count) * s.header.format.sector_size := by
    have : n * s.header.format.sector_size ≤
        (bi.sector_index + bi.sector_count) * s.header.format.sector_size :=
      Nat.mul_le_mul_right _ (by omega)
    omega
  have hsrcle : s.blocks_begin_offset +
      (bi.sector_index + bi.sector_count) * s.header.format.sector_size +
      (s.sectors.length - (bi.sector_index + bi.sector_count)) *
        s.header.format.sector_size ≤ s.file.length := by
    have h1 : (bi.sector_index + bi.sector_count) * s.header.format.sector_size +
        (s.sectors.length - (bi.sector_index + bi.sector_count)) *
          s.header.format.sector_size =
        s.sectors.length * s.header.format.sector_size := by
      rw [← Nat.add_mul]
      congr 1
      omega
    omega
  have hfileexpr0 : (remove_sectors_from_block s pos n).file =
      copyRun s.file
        (s.blocks_begin_offset +
          (bi.sector_index + bi.sector_count) * s.header.format.sector_size)
        (s.blocks_begin_offset +
          (bi.sector_index + bi.sector_count) * s.header.format.sector_size -
          n * s.header.format.sector_size)
        s.header.format.sector_size
        ((s.blocks_begin_offset + s.sectors.length * s.header.format.sector_size -
          (s.blocks_begin_offset +
            (bi.sector_index + bi.sector_count) * s.header.format.sector_size)) /
          s.header.format.sector_size) := by
    rw [hbi_def, hbidx_def]
    rfl
  have hfileexpr : (remove_sectors_from_block s pos n).file =
      copyRun s.file
        (s.blocks_begin_offset +
          (bi.sector_index + bi.sector_count) * s.header.format.sector_size)
        (s.blocks_begin_offset +
          (bi.sector_index + bi.sector_count) * s.header.format.sector_size -
          n * s.header.format.sector_size)
        s.header.format.sector_size
        (s.sectors.length - (bi.sector_index + bi.sector_count)) := by
    rw [hfileexpr0, hm]
  have hflen : (remove_sectors_from_block s pos n).file.length = s.file.length := by
    rw [hfileexpr]
    exact copyRun_length _ _ _ _ _ (by omega) hssp hsrcle
  have hget : ∀ p, (remove_sectors_from_block s pos n).file[p]? =
      if s.blocks_begin_offset +
            (bi.sector_index + bi.sector_count) * s.header.format.sector_size -
            n * s.header.format.sector_size ≤ p ∧
          p < s.blocks_begin_offset +
            (bi.sector_index + bi.sector_count) * s.header.format.sector_size -
            n * s.header.format.sector_size +
            (s.sectors.length - (bi.sector_index + bi.sector_count)) *
              s.header.format.sector_size
      then s.file[p + n * s.header.format.sector_size]?
      else s.file[p]? := by
    intro p
    rw [hfileexpr]
    exact copyRun_getElem s.file _ _ _ n _ hssp hdst hn1 hsrcle p
  -- rewrite the destination offset into subtraction-free form
  have hBA : n * s.header.format.sector_size ≤
      (bi.sector_index + bi.sector_count) * s.header.format.sector_size :=
    Nat.mul_le_mul_right _ (by omega)
  have hDBA : (bi.sector_index + bi.sector_count - n) * s.header.format.sector_size +
      n * s.header.format.sector_size =
      (bi.sector_index + bi.sector_count) * s.header.format.sector_size := by
    rw [← Nat.add_mul]
    congr 1
    omega
  have hdst2 : s.blocks_begin_offset +
      (bi.sector_index + bi.sector_count) * s.header.format.sector_size -
      n * s.header.format.sector_size =
      s.blocks_begin_offset +
        (bi.sector_index + bi.sector_count - n) * s.header.format.sector_size := by
    omega
  have hDl : (bi.sector_index + bi.sector_count - n) * s.header.format.sector_size +
      (s.sectors.length - (bi.sector_index + bi.sector_count)) *
        s.header.format.sector_size =
      (s.sectors.length - n) * s.header.format.sector_size := by
    rw [← Nat.add_mul]
    congr 1
    omega
  refine ⟨rfl, rfl, rfl, rfl, hsec, hseclen, hblen, hE, hF, hflen, ?_, ?_⟩
  · -- slid region
    intro k hk1 hk2
    apply readBytes_congr
    intro j hj
    rw [hget, hdst2]
    have c1 : (bi.sector_index + bi.sector_count - n) * s.header.format.sector_size ≤
        k * s.header.format.sector_size := Nat.mul_le_mul_right _ hk1
    have c2 : (k + 1) * s.header.format.sector_size ≤
        (s.sectors.length - n) * s.header.format.sector_size :=
      Nat.mul_le_mul_right _ (by omega)
    have c3 : (k + 1) * s.header.format.sector_size =
        k * s.header.format.sector_size + s.header.format.sector_size := by ring
    rw [if_pos (by omega)]
    have e1 : s.blocks_begin_offset + k * s.header.format.sector_size + j +
        n * s.header.format.sector_size =
        s.blocks_begin_offset + (k + n) * s.header.format.sector_size + j := by
      have e2 : (k + n) * s.header.format.sector_size =
          k * s.header.format.sector_size + n * s.header.format.sector_size := by ring
      omega
    rw [e1]
  · -- untouched prefix
    intro k hk
    apply readBytes_congr
    intro j hj
    rw [hget, hdst2, if_neg]
    intro hcon
    obtain ⟨hc1, -⟩ := hcon
    have c1 : (k + 1) * s.header.format.sector_size ≤
        (bi.sector_index + bi.sector_count - n) * s.header.format.sector_size :=
      Nat.mul_le_mul_right _ (by omega)
    have c3 : (k + 1) * s.header.format.sector_size =
        k * s.header.format.sector_size + s.header.format.sector_size := by ring
    omega

theorem remove_sectors_inv (s : RegionState) (pos : Vector3i) (n : Nat)
    (bidx : Nat) (bi : BlockInfo)
    (hbidx_def : bidx = pos.get_zxy_index s.header.format.region_size)
    (hbi_def : bi = s.header.blocks.getD bidx ⟨0, 0⟩)
    (hinv : InvOpen s)
    (hlt : bidx < s.header.blocks.length)
    (hpres : bi.data ≠ 0)
    (hn1 : 1 ≤ n) (hn2 : n ≤ bi.sector_count) :
    InvOpen (remove_sectors_from_block s pos n) := by
  obtain ⟨hA1, hA2, hA3, hA4, hsec, hseclen, hblen, hE, hF, hflen, hslide, hkeep⟩ :=
    remove_sectors_spec s pos n bidx bi hbidx_def hbi_def hinv hlt hpres hn1 hn2
  have hver := hinv.1
  have hssp := hinv.2.1
  have hvol := hinv.2.2.1
  have hlen := hinv.2.2.2.2.1
  have hfile := hinv.2.2.2.2.2
  have hpresD : (s.header.blocks.getD bidx ⟨0, 0⟩).data ≠ 0 := by
    rw [← hbi_def]
    exact hpres
  have hsc1 : 1 ≤ bi.sector_count := by
    rw [hbi_def]
    exact inv_count_pos s hinv bidx hlt hpresD
  have hrange : bi.sector_index + bi.sector_count ≤ s.sectors.length := by
    rw [hbi_def]
    exact inv_range_le s hinv bidx hlt hpresD
  refine ⟨?_, ?_, ?_, ?_, ?_, ?_⟩
  · rw [hA3]
    exact hver
  · rw [hA1]
    exact hssp
  · rw [hblen, hA1]
    exact hvol
  · -- I1: ownership
    intro i hi hp
    rw [hblen] at hi
    rw [hA1]
    by_cases hib : i = bidx
    · subst hib
      rw [hE] at hp ⊢
      by_cases hc : n < bi.sector_count
      · rw [if_pos hc] at hp ⊢
        refine ⟨by dsimp only; omega, ?_⟩
        intro j hj
        dsimp only at hj ⊢
        have hjlt : j < bi.sector_count := by omega
        have hbound := (inv_owned s hinv i hi hpresD j (by rw [← hbi_def]; omega)).1
        have hval := (inv_owned s hinv i hi hpresD j (by rw [← hbi_def]; omega)).2
        rw [← hbi_def] at hbound hval
        constructor
        · rw [hseclen]
          omega
        · rw [hsec, getD_take_append_drop_lo _ _ _ _ _ (by omega) (by omega)]
          exact hval
      · rw [if_neg hc] at hp
        simp [BlockInfo.data] at hp
    · have hFi := hF i hi hib
      rw [hFi] at hp ⊢
      by_cases hcond : (s.header.blocks.getD i ⟨0, 0⟩).data ≠ 0 ∧
          bi.sector_index < (s.header.blocks.getD i ⟨0, 0⟩).sector_index
      · rw [if_pos hcond] at hp ⊢
        obtain ⟨hpi, hgt⟩ := hcond
        have hsci := inv_count_pos s hinv i hi hpi
        have hri := inv_range_le s hinv i hi hpi
        have hd := inv_disjoint s hinv i bidx hi hlt hib hpi hpresD
        rw [← hbi_def] at hd
        have hge : bi.sector_index + bi.sector_count ≤
            (s.header.blocks.getD i ⟨0, 0⟩).sector_index := by
          rcases hd with hd | hd
          · omega
          · omega
        refine ⟨by dsimp only; omega, ?_⟩
        intro j hj
        dsimp only at hj ⊢
        have hbound := (inv_owned s hinv i hi hpi j hj).1
        have hval := (inv_owned s hinv i hi hpi j hj).2
        constructor
        · rw [hseclen]
          omega
        · rw [hsec, getD_take_append_drop_hi _ _ _ _ _ (by omega) (by omega)]
          have e1 : bi.sector_index + bi.sector_count +
              ((s.header.blocks.getD i ⟨0, 0⟩).sector_index - n + j -
                (bi.sector_index + bi.sector_count - n)) =
              (s.header.blocks.getD i ⟨0, 0⟩).sector_index + j := by
            omega
          rw [e1]
          exact hval
      · rw [if_neg hcond] at hp ⊢
        have hpi : (s.header.blocks.getD i ⟨0, 0⟩).data ≠ 0 := hp
        have hsci := inv_count_pos s hinv i hi hpi
        have hle : (s.header.blocks.getD i ⟨0, 0⟩).sector_index ≤ bi.sector_index := by
          by_contra hcc
          exact hcond ⟨hpi, by omega⟩
        have hd := inv_disjoint s hinv i bidx hi hlt hib hpi hpresD
        rw [← hbi_def] at hd
        have hend : (s.header.blocks.getD i ⟨0, 0⟩).sector_index +
            (s.header.blocks.getD i ⟨0, 0⟩).sector_count ≤ bi.sector_index := by
          rcases hd with hd | hd
          · exact hd
          · omega
        refine ⟨hsci, ?_⟩
        intro j hj
        have hval := (inv_owned s hinv i hi hpi j hj).2
        constructor
        · rw [hseclen]
          omega
        · rw [hsec, getD_take_append_drop_lo _ _ _ _ _ (by omega) (by omega)]
          exact hval
  · -- I2: map length equals total of counts
    rw [hseclen]
    have hsum : sumCounts (remove_sectors_from_block s pos n).header.blocks + n =
        sumCounts s.header.blocks := by
      rw [sumCounts_eq_sum_range, sumCounts_eq_sum_range, hblen]
      have hmem : bidx ∈ Finset.range s.header.blocks.length := Finset.mem_range.mpr hlt
      rw [Finset.sum_eq_sum_diff_singleton_add hmem, Finset.sum_eq_sum_diff_singleton_add hmem]
      have hcong : (∑ i ∈ Finset.range s.header.blocks.length \ {bidx},
          if ((remove_sectors_from_block s pos n).header.blocks.getD i ⟨0, 0⟩).data ≠ 0 then
            ((remove_sectors_from_block s pos n).header.blocks.getD i ⟨0, 0⟩).sector_count
          else 0) =
          ∑ i ∈ Finset.range s.header.blocks.length \ {bidx},
            if (s.header.blocks.getD i ⟨0, 0⟩).data ≠ 0 then
              (s.header.blocks.getD i ⟨0, 0⟩).sector_count else 0 := by
        apply Finset.sum_congr rfl
        intro i hi
        rw [Finset.mem_sdiff, Finset.mem_range, Finset.mem_singleton] at hi
        rw [hF i hi.1 hi.2]
        by_cases hcond : (s.header.blocks.getD i ⟨0, 0⟩).data ≠ 0 ∧
            bi.sector_index < (s.header.blocks.getD i ⟨0, 0⟩).sector_index
        · rw [if_pos hcond]
          have hsci := inv_count_pos s hinv i hi.1 hcond.1
          rw [if_pos (data_ne_zero_of_count _ (by dsimp only; omega)), if_pos hcond.1]
        · rw [if_neg hcond]
      rw [hcong, hE]
      have hold : (if (s.header.blocks.getD bidx ⟨0, 0⟩).data ≠ 0 then
          (s.header.blocks.getD bidx ⟨0, 0⟩).sector_count else 0) = bi.sector_count := by
        rw [if_pos hpresD, ← hbi_def]
      rw [hold]
      by_cases hc : n < bi.sector_count
      · rw [if_pos hc, if_pos (data_ne_zero_of_count _ (by dsimp only; omega))]
        dsimp only
        omega
      · rw [if_neg hc, if_neg (by unfold BlockInfo.data; simp)]
        omega
    omega
  · -- I5: the file image covers all sectors
    rw [hA1, hA2, hseclen, hflen]
    have h1 : (s.sectors.length - n) * s.header.format.sector_size ≤
        s.sectors.length * s.header.format.sector_size :=
      Nat.mul_le_mul_right _ (by omega)
    omega

theorem readBytes_store_prefix (f : List Nat) (ofs : Nat) (d1 d2 : List Nat)
    (h : ofs ≤ f.length) :
    readBytes (storeBytes f ofs (d1 ++ d2)) ofs d1.length = d1 := by
  apply List.ext_getElem?
  intro j
  rw [readBytes_getElem]
  by_cases hj : j < d1.length
  · rw [if_pos hj, storeBytes_getElem _ _ _ _ h, if_neg (by omega),
      if_pos (by rw [List.length_append]; omega)]
    have e1 : ofs + j - ofs = j := by omega
    rw [e1, List.getElem?_append, if_pos hj]
  · rw [if_neg hj, eq_comm, List.getElem?_eq_none]
    omega

theorem readBytes_store_suffix (f : List Nat) (ofs : Nat) (d1 d2 : List Nat)
    (h : ofs ≤ f.length) :
    readBytes (storeBytes f ofs (d1 ++ d2)) (ofs + d1.length) d2.length = d2 := by
  apply List.ext_getElem?
  intro j
  rw [readBytes_getElem]
  by_cases hj : j < d2.length
  · rw [if_pos hj, storeBytes_getElem _ _ _ _ h, if_neg (by omega),
      if_pos (by rw [List.length_append]; omega)]
    have e1 : ofs + d1.length + j - ofs = d1.length + j := by omega
    rw [e1, List.getElem?_append, if_neg (by omega)]
    have e2 : d1.length + j - d1.length = j := by omega
    rw [e2]
  · rw [if_neg hj, eq_comm, List.getElem?_eq_none]
    omega

theorem store_then_readback (f : List Nat) (ofs : Nat) (data : List Nat)
    (h : ofs ≤ f.length) (h32 : data.length < 4294967296) :
    get_32 (storeBytes f ofs (encode32 data.length ++ data)) ofs = data.length ∧
      readBytes (storeBytes f ofs (encode32 data.length ++ data)) (ofs + 4) data.length
        = data := by
  constructor
  · unfold get_32
    have h4 : (encode32 data.length).length = 4 := rfl
    rw [← h4, readBytes_store_prefix f ofs _ data h, decode32_encode32 _ h32]
  · have h4 : (encode32 data.length).length = 4 := rfl
    have := readBytes_store_suffix f ofs (encode32 data.length) data h
    rw [h4] at this
    exact this

theorem get_32_storeBytes_before (f : List Nat) (ofs2 : Nat) (q : List Nat) (ofs : Nat)
    (h1 : ofs + 4 ≤ ofs2) (h2 : ofs2 ≤ f.length) :
    get_32 (storeBytes f ofs2 q) ofs = get_32 f ofs := by
  unfold get_32
  rw [readBytes_storeBytes_before f ofs2 q ofs 4 h2 h1]

theorem remove_sectors_basic (s : RegionState) (pos : Vector3i) (n : Nat)
    (bidx : Nat) (bi : BlockInfo)
    (hbidx_def : bidx = pos.get_zxy_index s.header.format.region_size)
    (hbi_def : bi = s.header.blocks.getD bidx ⟨0, 0⟩)
    (hinv : InvOpen s)
    (hlt : bidx < s.header.blocks.length)
    (hpres : bi.data ≠ 0)
    (hn2 : n ≤ bi.sector_count) :
    (remove_sectors_from_block s pos n).header.format = s.header.format ∧
    (remove_sectors_from_block s pos n).blocks_begin_offset = s.blocks_begin_offset ∧
    (remove_sectors_from_block s pos n).header.version = s.header.version ∧
    (remove_sectors_from_block s pos n).fileOpen = s.fileOpen ∧
    (remove_sectors_from_block s pos n).sectors.length = s.sectors.length - n ∧
    (remove_sectors_from_block s pos n).header.blocks.length = s.header.blocks.length ∧
    (remove_sectors_from_block s pos n).file.length = s.file.length := by
  have hssp : 0 < s.header.format.sector_size := hinv.2.1
  have hfile : s.blocks_begin_offset + s.sectors.length * s.header.format.sector_size ≤
      s.file.length := hinv.2.2.2.2.2
  have hpresD : (s.header.blocks.getD bidx ⟨0, 0⟩).data ≠ 0 := by
    rw [← hbi_def]
    exact hpres
  have hrange : bi.sector_index + bi.sector_count ≤ s.sectors.length := by
    rw [hbi_def]
    exact inv_range_le s hinv bidx hlt hpresD
  have hsec : (remove_sectors_from_block s pos n).sectors =
      s.sectors.take (bi.sector_index + bi.sector_count - n) ++
        s.sectors.drop (bi.sector_index + bi.sector_count) := by
    rw [hbi_def, hbidx_def]
    rfl
  have hseclen : (remove_sectors_from_block s pos n).sectors.length =
      s.sectors.length - n := by
    rw [hsec, length_take_append_drop _ _ _ (by omega) (by omega)]
    omega
  have hm : (s.blocks_begin_offset + s.sectors.length * s.header.format.sector_size -
      (s.blocks_begin_offset +
        (bi.sector_index + bi.sector_count) * s.header.format.sector_size)) /
      s.header.format.sector_size =
      s.sectors.length - (bi.sector_index + bi.sector_count) := by
    have h1 : s.blocks_begin_offset + s.sectors.length * s.header.format.sector_size -
        (s.blocks_begin_offset +
          (bi.sector_index + bi.sector_count) * s.header.format.sector_size) =
        (s.sectors.length - (bi.sector_index + bi.sector_count)) *
          s.header.format.sector_size := by
      rw [Nat.sub_mul]
      have := Nat.mul_le_mul_right s.header.format.sector_size hrange
      omega
    rw [h1, Nat.mul_div_cancel _ hssp]
  have hfileexpr0 : (remove_sectors_from_block s pos n).file =
      copyRun s.file
        (s.blocks_begin_offset +
          (bi.sector_index + bi.sector_count) * s.header.format.sector_size)
        (s.blocks_begin_offset +
          (bi.sector_index + bi.sector_count) * s.header.format.sector_size -
          n * s.header.format.sector_size)
        s.header.format.sector_size
        ((s.blocks_begin_offset + s.sectors.length * s.header.format.sector_size -
          (s.blocks_begin_offset +
            (bi.sector_index + bi.sector_count) * s.header.format.sector_size)) /
          s.header.format.sector_size) := by
    rw [hbi_def, hbidx_def]
    rfl
  have hsrcle : s.blocks_begin_offset +
      (bi.sector_index + bi.sector_count) * s.header.format.sector_size +
      (s.sectors.length - (bi.sector_index + bi.sector_count)) *
        s.header.format.sector_size ≤ s.file.length := by
    have h1 : (bi.sector_index + bi.sector_count) * s.header.format.sector_size +
        (s.sectors.length - (bi.sector_index + bi.sector_count)) *
          s.header.format.sector_size =
        s.sectors.length * s.header.format.sector_size := by
      rw [← Nat.add_mul]
      congr 1
      omega
    omega
  have hflen : (remove_sectors_from_block s pos n).file.length = s.file.length := by
    rw [hfileexpr0, hm]
    exact copyRun_length _ _ _ _ _ (by omega) hssp hsrcle
  have hblen : (remove_sectors_from_block s pos n).header.blocks.length =
      s.header.blocks.length := by
    have hblocks0 : (remove_sectors_from_block s pos n).header.blocks =
        (if bi.sector_index <
            (s.sectors.take (bi.sector_index + bi.sector_count - n) ++
              s.sectors.drop (bi.sector_index + bi.sector_count)).length then
          (s.header.blocks.set bidx
            (if n < bi.sector_count then BlockInfo.mk bi.sector_index (bi.sector_count - n)
             else BlockInfo.mk 0 0)).map (fun b =>
            if b.data ≠ 0 ∧ bi.sector_index < b.sector_index
            then BlockInfo.mk (b.sector_index - n) b.sector_count
            else b)
        else
          s.header.blocks.set bidx
            (if n < bi.sector_count then BlockInfo.mk bi.sector_index (bi.sector_count - n)
             else BlockInfo.mk 0 0)) := by
      rw [hbi_def, hbidx_def]
      rfl
    rw [hblocks0]
    by_cases hg : bi.sector_index <
        (s.sectors.take (bi.sector_index + bi.sector_count - n) ++
          s.sectors.drop (bi.sector_index + bi.sector_count)).length
    · rw [if_pos hg, List.length_map, List.length_set]
    · rw [if_neg hg, List.length_set]
  exact ⟨rfl, rfl, rfl, rfl, hseclen, hblen, hflen⟩

theorem append_block_inv (t : RegionState) (position : Vector3i) (lut newc : Nat)
    (file2 : List Nat)
    (hinvt : InvOpen t)
    (hlut_def : lut = position.get_zxy_index t.header.format.region_size)
    (hcanon : Vector3i.from_zxy_index lut t.header.format.region_size = position)
    (hlt : lut < t.header.blocks.length)
    (habs : (t.header.blocks.getD lut ⟨0, 0⟩).data = 0)
    (hnc1 : 1 ≤ newc)
    (hflen : t.blocks_begin_offset + (t.sectors.length + newc) * t.header.format.sector_size ≤
      file2.length) :
    InvOpen { t with
      header := { t.header with
        blocks := t.header.blocks.set lut (BlockInfo.mk t.sectors.length newc) },
      sectors := t.sectors ++ List.replicate newc position,
      file := file2,
      header_modified := true } := by
  obtain ⟨hver, hssp, hvol, hown, hlen, hfile⟩ := hinvt
  refine ⟨hver, hssp, ?_, ?_, ?_, ?_⟩
  · dsimp only
    rw [List.length_set]
    exact hvol
  · dsimp only
    intro i hi hp
    rw [List.length_set] at hi
    by_cases hik : i = lut
    · subst hik
      rw [getD_set_self _ _ _ _ hlt] at hp ⊢
      refine ⟨hnc1, ?_⟩
      intro j hj
      dsimp only at hj ⊢
      constructor
      · rw [List.length_append, List.length_replicate]
        omega
      · rw [getD_append_hi, getD_replicate _ _ _ _ hj]
        exact hcanon.symm
    · rw [getD_set_other _ _ _ _ _ (fun h => hik h.symm)] at hp ⊢
      have hq := hown i hi hp
      refine ⟨hq.1, ?_⟩
      intro j hj
      have hb := hq.2 j hj
      constructor
      · rw [List.length_append, List.length_replicate]
        omega
      · rw [getD_append_lo _ _ _ _ hb.1]
        exact hb.2
  · dsimp only
    rw [List.length_append, List.length_replicate]
    have hs := sumCounts_set t.header.blocks lut (BlockInfo.mk t.sectors.length newc) hlt
    rw [if_neg (show ¬(t.header.blocks.getD lut ⟨0, 0⟩).data ≠ 0 from fun hh => hh habs),
      if_pos (data_ne_zero_of_count _ (show 1 ≤ (BlockInfo.mk t.sectors.length newc).sector_count
        from hnc1))] at hs
    dsimp only at hs
    omega
  · dsimp only
    rw [List.length_append, List.length_replicate]
    exact hflen

theorem save_block_inv (s : RegionState) (position : Vector3i) (block : VoxelBlock)
    (ser : VoxelBlock → List Nat)
    (hcanon : Vector3i.from_zxy_index
      (position.get_zxy_index s.header.format.region_size)
      s.header.format.region_size = position)
    (hinv : Inv s) :
    Inv (save_block s position block ser).2 := by
  unfold save_block
  by_cases hvf : verify_format s.header.format block = false
  · rw [if_pos hvf]
    exact hinv
  rw [if_neg hvf]
  by_cases hopen : s.fileOpen = false
  · rw [if_pos hopen]
    exact hinv
  rw [if_neg hopen]
  have hopen' : s.fileOpen = true := by
    cases hfo : s.fileOpen
    · exact absurd hfo hopen
    · rfl
  have hio : InvOpen s := hinv hopen'
  have hver := hio.1
  have hssp : 0 < s.header.format.sector_size := hio.2.1
  have hfile : s.blocks_begin_offset + s.sectors.length * s.header.format.sector_size ≤
      s.file.length := hio.2.2.2.2.2
  rw [if_neg (show ¬(s.header.version ≠ FORMAT_VERSION) from by rw [hver]; simp)]
  dsimp only
  by_cases hrange : s.header.blocks.length ≤
      position.get_zxy_index s.header.format.region_size
  · rw [if_pos hrange]
    exact hinv
  rw [if_neg hrange]
  have hlt' : position.get_zxy_index s.header.format.region_size <
      s.header.blocks.length := by omega
  have hnew1 : 1 ≤ get_sector_count_from_bytes s.header.format.sector_size
      (4 + (ser block).length) := Nat.le_add_left 1 _
  have hdlen : (encode32 (ser block).length ++ ser block).length =
      4 + (ser block).length := by
    rw [List.length_append]
    rfl
  by_cases hA : (s.header.blocks.getD (position.get_zxy_index s.header.format.region_size)
      ⟨0, 0⟩).data = 0
  · -- Case A: fresh block appended at the end of the sector map
    rw [if_pos hA]
    dsimp only
    intro _
    have hsi : (s.blocks_begin_offset +
        s.sectors.length * s.header.format.sector_size - s.blocks_begin_offset) /
        s.header.format.sector_size = s.sectors.length := by
      rw [Nat.add_sub_cancel_left, Nat.mul_div_cancel _ hssp]
    rw [hsi]
    have hf1len : (storeBytes s.file
        (s.blocks_begin_offset + s.sectors.length * s.header.format.sector_size)
        (encode32 (ser block).length ++ ser block)).length =
        max s.file.length
          (s.blocks_begin_offset + s.sectors.length * s.header.format.sector_size +
            (4 + (ser block).length)) := by
      rw [storeBytes_length _ _ _ (by omega), hdlen]
    apply append_block_inv s position _ _ _ hio rfl hcanon hlt' hA hnew1
    rw [storeBytes_length _ _ _ (by rw [hf1len]; exact Nat.le_max_right _ _),
      List.length_replicate, hf1len]
    have e1 : s.blocks_begin_offset + s.sectors.length * s.header.format.sector_size +
        (4 + (ser block).length) - s.blocks_begin_offset =
        s.sectors.length * s.header.format.sector_size + (4 + (ser block).length) := by
      omega
    rw [e1]
    have hpad := pad_exact s.header.format.sector_size (4 + (ser block).length)
      s.sectors.length hssp (by omega)
    have hm : (s.sectors.length + get_sector_count_from_bytes s.header.format.sector_size
        (4 + (ser block).length)) * s.header.format.sector_size =
        s.sectors.length * s.header.format.sector_size +
          get_sector_count_from_bytes s.header.format.sector_size
            (4 + (ser block).length) * s.header.format.sector_size := by
      ring
    omega
  -- existing block
  rw [if_neg hA]
  have hsc1 := inv_count_pos s hio _ hlt' hA
  have hrangeB := inv_range_le s hio _ hlt' hA
  by_cases hBC : get_sector_count_from_bytes s.header.format.sector_size
      (4 + (ser block).length) ≤
      (s.header.blocks.getD (position.get_zxy_index s.header.format.region_size)
        ⟨0, 0⟩).sector_count
  · -- Case B: rewrite in place (possibly shrinking first)
    rw [if_pos hBC]
    by_cases hSh : get_sector_count_from_bytes s.header.format.sector_size
        (4 + (ser block).length) <
        (s.header.blocks.getD (position.get_zxy_index s.header.format.region_size)
          ⟨0, 0⟩).sector_count
    · -- shrink, then store in place
      rw [if_pos hSh]
      dsimp only
      intro _
      obtain ⟨rA1, rA2, rA3, rA4, rsec, rseclen, rblen, rE, rF, rflen, rslide, rkeep⟩ :=
        remove_sectors_spec s position
          ((s.header.blocks.getD (position.get_zxy_index s.header.format.region_size)
              ⟨0, 0⟩).sector_count -
            get_sector_count_from_bytes s.header.format.sector_size
              (4 + (ser block).length))
          (position.get_zxy_index s.header.format.region_size)
          (s.header.blocks.getD (position.get_zxy_index s.header.format.region_size) ⟨0, 0⟩)
          rfl rfl hio hlt' hA (by omega) (by omega)
      have hinv2 : InvOpen (remove_sectors_from_block s position
          ((s.header.blocks.getD (position.get_zxy_index s.header.format.region_size)
              ⟨0, 0⟩).sector_count -
            get_sector_count_from_bytes s.header.format.sector_size
              (4 + (ser block).length))) :=
        remove_sectors_inv s position _
          (position.get_zxy_index s.header.format.region_size)
          (s.header.blocks.getD (position.get_zxy_index s.header.format.region_size) ⟨0, 0⟩)
          rfl rfl hio hlt' hA (by omega) (by omega)
      have hval : BlockInfo.mk
          ((remove_sectors_from_block s position
            ((s.header.blocks.getD (position.get_zxy_index s.header.format.region_size)
                ⟨0, 0⟩).sector_count -
              get_sector_count_from_bytes s.header.format.sector_size
                (4 + (ser block).length))).header.blocks.getD
            (position.get_zxy_index s.header.format.region_size) ⟨0, 0⟩).sector_index
          (get_sector_count_from_bytes s.header.format.sector_size
            (4 + (ser block).length)) =
          (remove_sectors_from_block s position
            ((s.header.blocks.getD (position.get_zxy_index s.header.format.region_size)
                ⟨0, 0⟩).sector_count -
              get_sector_count_from_bytes s.header.format.sector_size
                (4 + (ser block).length))).header.blocks.getD
            (position.get_zxy_index s.header.format.region_size) ⟨0, 0⟩ := by
        rw [rE, if_pos (by omega)]
        dsimp only
        simp only [BlockInfo.mk.injEq]
        exact ⟨trivial, by omega⟩
      rw [hval, set_getD_self _ _ _ (by rw [rblen]; exact hlt')]
      have h5 := hinv2.2.2.2.2.2
      have hsile : (s.header.blocks.getD
          (position.get_zxy_index s.header.format.region_size) ⟨0, 0⟩).sector_index *
            s.header.format.sector_size ≤
          s.sectors.length * s.header.format.sector_size :=
        Nat.mul_le_mul_right _ (by omega)
      have hofs : s.blocks_begin_offset +
          (s.header.blocks.getD (position.get_zxy_index s.header.format.region_size)
            ⟨0, 0⟩).sector_index * s.header.format.sector_size ≤
          (remove_sectors_from_block s position
            ((s.header.blocks.getD (position.get_zxy_index s.header.format.region_size)
                ⟨0, 0⟩).sector_count -
              get_sector_count_from_bytes s.header.format.sector_size
                (4 + (ser block).length))).file.length := by
        rw [rflen]
        omega
      refine ⟨hinv2.1, hinv2.2.1, hinv2.2.2.1, hinv2.2.2.2.1, hinv2.2.2.2.2.1, ?_⟩
      rw [storeBytes_length _ _ _ hofs]
      exact le_trans h5 (Nat.le_max_left _ _)
    · -- equal size, store in place only
      rw [if_neg hSh]
      dsimp only
      intro _
      have heq : get_sector_count_from_bytes s.header.format.sector_size
          (4 + (ser block).length) =
          (s.header.blocks.getD (position.get_zxy_index s.header.format.region_size)
            ⟨0, 0⟩).sector_count := by omega
      have hval : BlockInfo.mk
          ((s.header.blocks.getD (position.get_zxy_index s.header.format.region_size)
            ⟨0, 0⟩)).sector_index
          (get_sector_count_from_bytes s.header.format.sector_size
            (4 + (ser block).length)) =
          s.header.blocks.getD (position.get_zxy_index s.header.format.region_size)
            ⟨0, 0⟩ := by
        rw [heq]
      rw [hval, set_getD_self _ _ _ hlt']
      have hsile : (s.header.blocks.getD
          (position.get_zxy_index s.header.format.region_size) ⟨0, 0⟩).sector_index *
            s.header.format.sector_size ≤
          s.sectors.length * s.header.format.sector_size :=
        Nat.mul_le_mul_right _ (by omega)
      refine ⟨hio.1, hio.2.1, hio.2.2.1, hio.2.2.2.1, hio.2.2.2.2.1, ?_⟩
      rw [storeBytes_length _ _ _ (by omega)]
      exact le_trans hfile (Nat.le_max_left _ _)
  · -- Case C: grow, discard all old sectors then append at the new end
    rw [if_neg hBC]
    dsimp only
    intro _
    obtain ⟨rA1, rA2, rA3, rA4, rsec, rseclen, rblen, rE, rF, rflen, rslide, rkeep⟩ :=
      remove_sectors_spec s position
        ((s.header.blocks.getD (position.get_zxy_index s.header.format.region_size)
          ⟨0, 0⟩).sector_count)
        (position.get_zxy_index s.header.format.region_size)
        (s.header.blocks.getD (position.get_zxy_index s.header.format.region_size) ⟨0, 0⟩)
        rfl rfl hio hlt' hA hsc1 (Nat.le_refl _)
    have hinv2 : InvOpen (remove_sectors_from_block s position
        ((s.header.blocks.getD (position.get_zxy_index s.header.format.region_size)
          ⟨0, 0⟩).sector_count)) :=
      remove_sectors_inv s position _
        (position.get_zxy_index s.header.format.region_size)
        (s.header.blocks.getD (position.get_zxy_index s.header.format.region_size) ⟨0, 0⟩)
        rfl rfl hio hlt' hA hsc1 (Nat.le_refl _)
    apply append_block_inv
      (remove_sectors_from_block s position
        ((s.header.blocks.getD (position.get_zxy_index s.header.format.region_size)
          ⟨0, 0⟩).sector_count))
      position (position.get_zxy_index s.header.format.region_size)
      (get_sector_count_from_bytes s.header.format.sector_size (4 + (ser block).length))
      _ hinv2 rfl hcanon (by rw [rblen]; exact hlt')
      (by rw [rE, if_neg (by omega)]; decide) hnew1
    have hofs : s.blocks_begin_offset +
        (remove_sectors_from_block s position
          ((s.header.blocks.getD (position.get_zxy_index s.header.format.region_size)
            ⟨0, 0⟩).sector_count)).sectors.length * s.header.format.sector_size ≤
        (remove_sectors_from_block s position
          ((s.header.blocks.getD (position.get_zxy_index s.header.format.region_size)
            ⟨0, 0⟩).sector_count)).file.length := by
      rw [rflen, rseclen]
      have : (s.sectors.length -
          (s.header.blocks.getD (position.get_zxy_index s.header.format.region_size)
            ⟨0, 0⟩).sector_count) * s.header.format.sector_size ≤
          s.sectors.length * s.header.format.sector_size :=
        Nat.mul_le_mul_right _ (by omega)
      omega
    have hf1len : (storeBytes
        (remove_sectors_from_block s position
          ((s.header.blocks.getD (position.get_zxy_index s.header.format.region_size)
            ⟨0, 0⟩).sector_count)).file
        (s.blocks_begin_offset +
          (remove_sectors_from_block s position
            ((s.header.blocks.getD (position.get_zxy_index s.header.format.region_size)
              ⟨0, 0⟩).sector_count)).sectors.length * s.header.format.sector_size)
        (encode32 (ser block).length ++ ser block)).length =
        max (remove_sectors_from_block s position
          ((s.header.blocks.getD (position.get_zxy_index s.header.format.region_size)
            ⟨0, 0⟩).sector_count)).file.length
          (s.blocks_begin_offset +
            (remove_sectors_from_block s position
              ((s.header.blocks.getD (position.get_zxy_index s.header.format.region_size)
                ⟨0, 0⟩).sector_count)).sectors.length * s.header.format.sector_size +
            (4 + (ser block).length)) := by
      rw [storeBytes_length _ _ _ hofs, hdlen]
    rw [storeBytes_length _ _ _ (by rw [hf1len]; exact Nat.le_max_right _ _),
      List.length_replicate, hf1len, rA2, rseclen]
    have e1 : s.blocks_begin_offset +
        (s.sectors.length -
          (s.header.blocks.getD (position.get_zxy_index s.header.format.region_size)
            ⟨0, 0⟩).sector_count) * s.header.format.sector_size +
        (4 + (ser block).length) - s.blocks_begin_offset =
        (s.sectors.length -
          (s.header.blocks.getD (position.get_zxy_index s.header.format.region_size)
            ⟨0, 0⟩).sector_count) * s.header.format.sector_size +
          (4 + (ser block).length) := by
      omega
    rw [e1]
    have hssr : (remove_sectors_from_block s position
        ((s.header.blocks.getD (position.get_zxy_index s.header.format.region_size)
          ⟨0, 0⟩).sector_count)).header.format.sector_size =
        s.header.format.sector_size := by
      rw [rA1]
    rw [hssr, rflen]
    have hpad := pad_exact s.header.format.sector_size (4 + (ser block).length)
      (s.sectors.length -
        (s.header.blocks.getD (position.get_zxy_index s.header.format.region_size)
          ⟨0, 0⟩).sector_count) hssp (by omega)
    have hm : ((s.sectors.length -
        (s.header.blocks.getD (position.get_zxy_index s.header.format.region_size)
          ⟨0, 0⟩).sector_count) +
        get_sector_count_from_bytes s.header.format.sector_size
          (4 + (ser block).length)) * s.header.format.sector_size =
        (s.sectors.length -
          (s.header.blocks.getD (position.get_zxy_index s.header.format.region_size)
            ⟨0, 0⟩).sector_count) * s.header.format.sector_size +
          get_sector_count_from_bytes s.header.format.sector_size
            (4 + (ser block).length) * s.header.format.sector_size := by
      ring
    omega

theorem sumCounts_list (blocks : List BlockInfo) :
    ((List.range blocks.length).map (fun i =>
      if (blocks.getD i ⟨0, 0⟩).data ≠ 0 then (blocks.getD i ⟨0, 0⟩).sector_count
      else 0)).sum = sumCounts blocks := by
  induction blocks with
  | nil => rfl
  | cons b t ih =>
      rw [List.length_cons, List.range_succ_eq_map, List.map_cons, List.map_map,
        List.sum_cons, sumCounts]
      have hcong : (List.range t.length).map
          ((fun i => if ((b :: t).getD i ⟨0, 0⟩).data ≠ 0 then
            ((b :: t).getD i ⟨0, 0⟩).sector_count else 0) ∘ Nat.succ) =
          (List.range t.length).map (fun i =>
            if (t.getD i ⟨0, 0⟩).data ≠ 0 then (t.getD i ⟨0, 0⟩).sector_count else 0) := by
        apply List.map_congr_left
        intro a _
        rfl
      rw [hcong, ih]
      rfl

theorem filterMap_pairs_sum (blocks : List BlockInfo) (l : List Nat) :
    ((l.filterMap (fun i =>
        if (blocks.getD i ⟨0, 0⟩).data ≠ 0 then some (blocks.getD i ⟨0, 0⟩, i)
        else none)).map (fun p => p.1.sector_count)).sum =
      (l.map (fun i =>
        if (blocks.getD i ⟨0, 0⟩).data ≠ 0 then (blocks.getD i ⟨0, 0⟩).sector_count
        else 0)).sum := by
  induction l with
  | nil => rfl
  | cons a t ih =>
      rw [List.filterMap_cons, List.map_cons, List.sum_cons]
      by_cases hp : (blocks.getD a ⟨0, 0⟩).data ≠ 0
      · rw [if_pos hp, if_pos hp, List.map_cons, List.sum_cons, ih]
      · rw [if_neg hp, if_neg hp, ih]
        omega

theorem mem_presentPairs (blocks : List BlockInfo) (p : BlockInfo × Nat) :
    p ∈ (List.range blocks.length).filterMap (fun i =>
        if (blocks.getD i ⟨0, 0⟩).data ≠ 0 then some (blocks.getD i ⟨0, 0⟩, i)
        else none) ↔
      p.2 < blocks.length ∧ (blocks.getD p.2 ⟨0, 0⟩).data ≠ 0 ∧
        p.1 = blocks.getD p.2 ⟨0, 0⟩ := by
  rw [List.mem_filterMap]
  constructor
  · rintro ⟨a, ha, heq⟩
    rw [List.mem_range] at ha
    by_cases hp : (blocks.getD a ⟨0, 0⟩).data ≠ 0
    · rw [if_pos hp] at heq
      injection heq with heq2
      rw [← heq2]
      exact ⟨ha, hp, rfl⟩
    · rw [if_neg hp] at heq
      exact absurd heq (by simp)
  · rintro ⟨h1, h2, h3⟩
    refine ⟨p.2, List.mem_range.mpr h1, ?_⟩
    rw [if_pos h2, ← h3]

theorem pairs_pairwise_ne (blocks : List BlockInfo) :
    List.Pairwise (fun p q : BlockInfo × Nat => p.2 ≠ q.2)
      ((List.range blocks.length).filterMap (fun i =>
        if (blocks.getD i ⟨0, 0⟩).data ≠ 0 then some (blocks.getD i ⟨0, 0⟩, i)
        else none)) := by
  apply List.Pairwise.filterMap _ _ (List.pairwise_lt_range blocks.length)
  intro a b hab x hx y hy
  have hxa : x.2 = a := by
    by_cases hp : (blocks.getD a ⟨0, 0⟩).data ≠ 0
    · rw [if_pos hp, Option.mem_def] at hx
      injection hx with h2
      rw [← h2]
    · rw [if_neg hp] at hx
      exact absurd hx (by simp)
  have hyb : y.2 = b := by
    by_cases hp : (blocks.getD b ⟨0, 0⟩).data ≠ 0
    · rw [if_pos hp, Option.mem_def] at hy
      injection hy with h2
      rw [← h2]
    · rw [if_neg hp] at hy
      exact absurd hy (by simp)
  rw [hxa, hyb]
  omega

theorem layout_sum_le (l : List (BlockInfo × Nat)) (lo S : Nat)
    (hel : ∀ p ∈ l, 1 ≤ p.1.sector_count ∧ lo ≤ p.1.sector_index ∧
      p.1.sector_index + p.1.sector_count ≤ S)
    (hdisj : List.Pairwise (fun p q : BlockInfo × Nat =>
      p.1.sector_index + p.1.sector_count ≤ q.1.sector_index ∨
      q.1.sector_index + q.1.sector_count ≤ p.1.sector_index) l)
    (hsort : List.Pairwise (fun p q : BlockInfo × Nat =>
      p.1.sector_index ≤ q.1.sector_index) l)
    (hlo : lo ≤ S) :
    lo + (l.map (fun p => p.1.sector_count)).sum ≤ S := by
  induction l generalizing lo with
  | nil => simpa using hlo
  | cons p t ih =>
      rw [List.pairwise_cons] at hdisj hsort
      have hp := hel p (List.mem_cons_self p t)
      have hstep : ∀ q ∈ t, p.1.sector_index + p.1.sector_count ≤ q.1.sector_index := by
        intro q hq
        rcases hdisj.1 q hq with h | h
        · exact h
        · have := hsort.1 q hq
          have := (hel q (List.mem_cons_of_mem p hq)).1
          omega
      have hih := ih (p.1.sector_index + p.1.sector_count)
        (fun q hq => ⟨(hel q (List.mem_cons_of_mem p hq)).1, hstep q hq,
          (hel q (List.mem_cons_of_mem p hq)).2.2⟩)
        hdisj.2 hsort.2 hp.2.2
      rw [List.map_cons, List.sum_cons]
      omega

theorem layout_from_exact (l : List (BlockInfo × Nat)) (lo S : Nat)
    (hel : ∀ p ∈ l, 1 ≤ p.1.sector_count ∧ lo ≤ p.1.sector_index ∧
      p.1.sector_index + p.1.sector_count ≤ S)
    (hdisj : List.Pairwise (fun p q : BlockInfo × Nat =>
      p.1.sector_index + p.1.sector_count ≤ q.1.sector_index ∨
      q.1.sector_index + q.1.sector_count ≤ p.1.sector_index) l)
    (hsort : List.Pairwise (fun p q : BlockInfo × Nat =>
      p.1.sector_index ≤ q.1.sector_index) l)
    (hsum : lo + (l.map (fun p => p.1.sector_count)).sum = S) :
    LayoutFrom lo l := by
  induction l generalizing lo with
  | nil => trivial
  | cons p t ih =>
      rw [List.pairwise_cons] at hdisj hsort
      have hp := hel p (List.mem_cons_self p t)
      have hstep : ∀ q ∈ t, p.1.sector_index + p.1.sector_count ≤ q.1.sector_index := by
        intro q hq
        rcases hdisj.1 q hq with h | h
        · exact h
        · have := hsort.1 q hq
          have := (hel q (List.mem_cons_of_mem p hq)).1
          omega
      rw [List.map_cons, List.sum_cons] at hsum
      have hle := layout_sum_le (p :: t) p.1.sector_index S
        (fun q hq => by
          rcases List.mem_cons.mp hq with h | h
          · subst h
            exact ⟨hp.1, Nat.le_refl _, hp.2.2⟩
          · exact ⟨(hel q (List.mem_cons_of_mem p h)).1, by have := hstep q h; omega,
              (hel q (List.mem_cons_of_mem p h)).2.2⟩)
        (List.pairwise_cons.mpr hdisj) (List.pairwise_cons.mpr hsort) (by omega)
      rw [List.map_cons, List.sum_cons] at hle
      have hsi : p.1.sector_index = lo := by omega
      refine ⟨hsi, ?_⟩
      exact ih (lo + p.1.sector_count)
        (fun q hq => ⟨(hel q (List.mem_cons_of_mem p hq)).1,
          by have := hstep q hq; omega,
          (hel q (List.mem_cons_of_mem p hq)).2.2⟩)
        hdisj.2 hsort.2 (by omega)

theorem layoutFrom_le (l : List (BlockInfo × Nat)) (acc : Nat)
    (hl : LayoutFrom acc l) : ∀ p ∈ l, acc ≤ p.1.sector_index := by
  induction l generalizing acc with
  | nil => intro p hp; exact absurd hp (List.not_mem_nil p)
  | cons q t ih =>
      obtain ⟨hq, ht⟩ := hl
      intro p hp
      rcases List.mem_cons.mp hp with h | h
      · subst h
        omega
      · have := ih (acc + q.1.sector_count) ht p h
        omega

theorem flat_length (R : Vector3i) (l : List (BlockInfo × Nat)) :
    (l.flatMap (fun q => List.replicate q.1.sector_count
      (Vector3i.from_zxy_index q.2 R))).length =
      (l.map (fun p => p.1.sector_count)).sum := by
  rw [List.length_flatMap]
  congr 1
  apply List.map_congr_left
  intro a _
  simp [Function.comp]

theorem flat_lookup (R : Vector3i) (l : List (BlockInfo × Nat)) (acc : Nat)
    (hl : LayoutFrom acc l) (p : BlockInfo × Nat) (hp : p ∈ l) (j : Nat)
    (hj : j < p.1.sector_count) :
    (l.flatMap (fun q => List.replicate q.1.sector_count
      (Vector3i.from_zxy_index q.2 R))).getD
        (p.1.sector_index + j - acc) ⟨0, 0, 0⟩ =
      Vector3i.from_zxy_index p.2 R := by
  induction l generalizing acc with
  | nil => exact absurd hp (List.not_mem_nil p)
  | cons q t ih =>
      obtain ⟨hq, ht⟩ := hl
      rw [List.flatMap_cons]
      rcases List.mem_cons.mp hp with h | h
      · subst h
        have e1 : p.1.sector_index + j - acc = j := by omega
        rw [e1, getD_append_lo _ _ _ _ (by rw [List.length_replicate]; exact hj),
          getD_replicate _ _ _ _ hj]
      · have hacc2 := layoutFrom_le t (acc + q.1.sector_count) ht p h
        have e2 : p.1.sector_index + j - acc =
            (List.replicate q.1.sector_count (Vector3i.from_zxy_index q.2 R)).length +
              (p.1.sector_index + j - (acc + q.1.sector_count)) := by
          rw [List.length_replicate]
          omega
        rw [e2, getD_append_hi]
        exact ih (acc + q.1.sector_count) ht h

theorem rebuildSectors_spec (h : Header) (htab : TableOK h) :
    (rebuildSectors h).length = sumCounts h.blocks ∧
    (∀ i, i < h.blocks.length → (h.blocks.getD i ⟨0, 0⟩).data ≠ 0 →
      ∀ j, j < (h.blocks.getD i ⟨0, 0⟩).sector_count →
        (h.blocks.getD i ⟨0, 0⟩).sector_index + j < (rebuildSectors h).length ∧
        (rebuildSectors h).getD ((h.blocks.getD i ⟨0, 0⟩).sector_index + j) ⟨0, 0, 0⟩ =
          Vector3i.from_zxy_index i h.format.region_size) := by
  obtain ⟨hvol, hrange2, hdisj3⟩ := htab
  set P : List (BlockInfo × Nat) := (List.range h.blocks.length).filterMap (fun i =>
    if (h.blocks.getD i ⟨0, 0⟩).data ≠ 0 then some (h.blocks.getD i ⟨0, 0⟩, i)
    else none) with hP
  set S : List (BlockInfo × Nat) :=
    P.mergeSort (fun a b => a.1.sector_index ≤ b.1.sector_index) with hS
  have hdef : rebuildSectors h = S.flatMap (fun bi =>
      List.replicate bi.1.sector_count
        (Vector3i.from_zxy_index bi.2 h.format.region_size)) := by
    rw [hS, hP]
    rfl
  have hperm : S.Perm P := by
    rw [hS]
    exact List.mergeSort_perm P _
  have hsumP : (P.map (fun p => p.1.sector_count)).sum = sumCounts h.blocks := by
    rw [hP, filterMap_pairs_sum, sumCounts_list]
  have hsumS : (S.map (fun p => p.1.sector_count)).sum = sumCounts h.blocks :=
    ((hperm.map _).sum_eq).trans hsumP
  have hmem : ∀ p ∈ S, p.2 < h.blocks.length ∧
      (h.blocks.getD p.2 ⟨0, 0⟩).data ≠ 0 ∧ p.1 = h.blocks.getD p.2 ⟨0, 0⟩ := by
    intro p hp
    have := hperm.mem_iff.mp hp
    rw [hP] at this
    exact (mem_presentPairs h.blocks p).mp this
  have hel : ∀ p ∈ S, 1 ≤ p.1.sector_count ∧ 0 ≤ p.1.sector_index ∧
      p.1.sector_index + p.1.sector_count ≤ sumCounts h.blocks := by
    intro p hp
    obtain ⟨h1, h2, h3⟩ := hmem p hp
    have hr := hrange2 p.2 h1 h2
    rw [h3]
    exact ⟨hr.1, Nat.zero_le _, hr.2⟩
  have hsorted : List.Pairwise
      (fun p q : BlockInfo × Nat => p.1.sector_index ≤ q.1.sector_index) S := by
    rw [hS]
    have hs := @List.sorted_mergeSort (BlockInfo × Nat)
      (fun a b => decide (a.1.sector_index ≤ b.1.sector_index))
      (by
        intro a b c hab hbc
        rw [decide_eq_true_eq] at hab hbc ⊢
        omega)
      (by
        intro a b
        rw [Bool.or_eq_true, decide_eq_true_eq, decide_eq_true_eq]
        omega) P
    exact hs.imp (fun hab => by rwa [decide_eq_true_eq] at hab)
  have hdisjP : List.Pairwise (fun p q : BlockInfo × Nat =>
      p.1.sector_index + p.1.sector_count ≤ q.1.sector_index ∨
      q.1.sector_index + q.1.sector_count ≤ p.1.sector_index) P := by
    apply List.Pairwise.imp_of_mem _ (by rw [hP]; exact pairs_pairwise_ne h.blocks)
    intro a b ha hb hne
    have ha2 := (mem_presentPairs h.blocks a).mp (by rw [hP] at ha; exact ha)
    have hb2 := (mem_presentPairs h.blocks b).mp (by rw [hP] at hb; exact hb)
    have hd := hdisj3 a.2 ha2.1 b.2 hb2.1 ⟨hne, ha2.2.1, hb2.2.1⟩
    rw [ha2.2.2, hb2.2.2]
    exact hd
  have hdisjS : List.Pairwise (fun p q : BlockInfo × Nat =>
      p.1.sector_index + p.1.sector_count ≤ q.1.sector_index ∨
      q.1.sector_index + q.1.sector_count ≤ p.1.sector_index) S :=
    (hperm.pairwise_iff (fun hab => hab.symm)).mpr hdisjP
  have hlay : LayoutFrom 0 S :=
    layout_from_exact S 0 (sumCounts h.blocks) hel hdisjS hsorted
      (by rw [Nat.zero_add, hsumS])
  have hlen : (rebuildSectors h).length = sumCounts h.blocks := by
    rw [hdef, flat_length, hsumS]
  refine ⟨hlen, ?_⟩
  intro i hi hp j hj
  have hpmem : (h.blocks.getD i ⟨0, 0⟩, i) ∈ S := by
    apply hperm.mem_iff.mpr
    rw [hP]
    exact (mem_presentPairs h.blocks _).mpr ⟨hi, hp, rfl⟩
  constructor
  · rw [hlen]
    have := hrange2 i hi hp
    omega
  · have hfl := flat_lookup h.format.region_size S 0 hlay
      (h.blocks.getD i ⟨0, 0⟩, i) hpmem j hj
    rw [Nat.sub_zero] at hfl
    rw [hdef]
    exact hfl

theorem open_inv (s0 : RegionState) (bytes : List Nat) (s' : RegionState)
    (hwf : WellFormedDisk s0.header.format bytes)
    (hok : openFile s0 bytes = (Err.OK, s')) : InvOpen s' := by
  obtain ⟨hd, bbo, hload, hver, hss, htab, hcov⟩ := hwf
  unfold openFile at hok
  dsimp only at hok
  rw [hload] at hok
  dsimp only at hok
  injection hok with h1 h2
  subst h2
  obtain ⟨hlen, hown⟩ := rebuildSectors_spec hd htab
  refine ⟨hver, hss, ?_, ?_, ?_, ?_⟩
  · exact htab.1
  · intro i hi hp
    dsimp only at hi hp ⊢
    refine ⟨?_, ?_⟩
    · by_contra hc
      have : (hd.blocks.getD i ⟨0, 0⟩).sector_count = 0 := by omega
      have := hown i hi hp
      exact absurd (htab.2.1 i hi hp).1 (by omega)
    · intro j hj
      exact hown i hi hp j hj
  · dsimp only
    exact hlen
  · dsimp only
    rw [hlen]
    exact hcov

theorem closeFile_closed (s : RegionState) : (closeFile s).2.fileOpen = false := by
  unfold closeFile
  by_cases h1 : s.fileOpen = true
  · rw [if_pos h1]
    by_cases h2 : s.header_modified = true
    · rw [if_pos h2]
      cases hsv : save_header s with
      | none => rfl
      | some s1 => rfl
    · rw [if_neg h2]
  · rw [if_neg h1]
    dsimp only
    cases hfo : s.fileOpen with
    | false => rfl
    | true => exact absurd hfo h1

theorem step_preserves_inv (s s' : RegionState) (hstep : Step s s') (hinv : Inv s) :
    Inv s' := by
  match hstep with
  | .open_ok _ _ bytes hwf hok =>
      exact fun _ => open_inv _ bytes _ hwf hok
  | .save_ok _ position block ser hcanon hok =>
      exact save_block_inv _ position block ser hcanon hinv
  | .load_ok _ position out deser hok => exact hinv
  | .close_ok _ hok =>
      intro hopen
      rw [closeFile_closed s] at hopen
      exact absurd hopen (by decide)

theorem load_block_reads (s2 : RegionState) (position : Vector3i) (out block : VoxelBlock)
    (payload : List Nat) (deser : List Nat → VoxelBlock → Option VoxelBlock)
    (hopen : s2.fileOpen = true)
    (hlut : position.get_zxy_index s2.header.format.region_size < s2.header.blocks.length)
    (hpres : (s2.header.blocks.getD (position.get_zxy_index s2.header.format.region_size)
      ⟨0, 0⟩).data ≠ 0)
    (hg32 : get_32 s2.file (s2.blocks_begin_offset +
      (s2.header.blocks.getD (position.get_zxy_index s2.header.format.region_size)
        ⟨0, 0⟩).sector_index * s2.header.format.sector_size) = payload.length)
    (hpay : readBytes s2.file (s2.blocks_begin_offset +
      (s2.header.blocks.getD (position.get_zxy_index s2.header.format.region_size)
        ⟨0, 0⟩).sector_index * s2.header.format.sector_size + 4) payload.length = payload)
    (hdeser : ∀ o : VoxelBlock, deser payload o =
      some { block with channel_depths := o.channel_depths }) :
    load_block s2 position (some out) deser =
      (Err.OK, some { block with channel_depths := s2.header.format.channel_depths }) := by
  unfold load_block
  simp only [hopen, Bool.true_eq_false, if_false, if_neg (Nat.not_le_of_lt hlut)]
  rw [if_neg hpres, if_neg (show ¬(out.size ≠ out.size) by simp)]
  rw [hg32, hpay, hdeser]

/-- C1: on an open region file satisfying the invariants, after
`save_block(pos, b)` returns `OK`, a following `load_block(pos)` returns
`OK` and yields the block reconstructed by the (opaque, assumed-inverse)
serializer codec from the exact payload `save_block` stored, with the loaded
block's channel depths set to the format's channel depths. -/
theorem save_then_load_roundtrip (s : RegionState) (position : Vector3i)
    (block out : VoxelBlock) (ser : VoxelBlock → List Nat)
    (deser : List Nat → VoxelBlock → Option VoxelBlock)
    (hinv : InvOpen s) (hopen : s.fileOpen = true)
    (hvf : verify_format s.header.format block = true)
    (hlut : position.get_zxy_index s.header.format.region_size < s.header.blocks.length)
    (h32 : (ser block).length < 4294967296)
    (hdeser : ∀ o : VoxelBlock, deser (ser block) o =
      some { block with channel_depths := o.channel_depths }) :
    (save_block s position block ser).1 = Err.OK ∧
      load_block (save_block s position block ser).2 position (some out) deser =
        (Err.OK, some { block with channel_depths := s.header.format.channel_depths }) := by
  have hver := hinv.1
  have hssp : 0 < s.header.format.sector_size := hinv.2.1
  have hfile : s.blocks_begin_offset + s.sectors.length * s.header.format.sector_size ≤
      s.file.length := hinv.2.2.2.2.2
  have hcnt1 : ∀ w : Nat, 1 ≤ get_sector_count_from_bytes s.header.format.sector_size w := by
    intro w
    exact Nat.le_add_left 1 _
  have hnew1 : 1 ≤ get_sector_count_from_bytes s.header.format.sector_size
      (4 + (ser block).length) := hcnt1 _
  unfold save_block
  simp only [hvf, Bool.true_eq_false, if_false, hopen, ite_false]
  rw [if_neg (show ¬(s.header.version ≠ FORMAT_VERSION) from by rw [hver]; simp)]
  dsimp only
  rw [if_neg (Nat.not_le_of_lt hlut)]
  by_cases hA : (s.header.blocks.getD (position.get_zxy_index s.header.format.region_size)
      ⟨0, 0⟩).data = 0
  · -- Case A: new block, append at the end
    rw [if_pos hA]
    refine ⟨rfl, ?_⟩
    have hofs : s.blocks_begin_offset + s.sectors.length * s.header.format.sector_size ≤
        s.file.length := hfile
    have hf1len : (storeBytes s.file
        (s.blocks_begin_offset + s.sectors.length * s.header.format.sector_size)
        (encode32 (ser block).length ++ ser block)).length =
        max s.file.length
          (s.blocks_begin_offset + s.sectors.length * s.header.format.sector_size +
            (4 + (ser block).length)) := by
      rw [storeBytes_length _ _ _ hofs]
      congr 1
      rw [List.length_append]
      have : (encode32 (ser block).length).length = 4 := rfl
      rw [this]
    refine load_block_reads _ position out block (ser block) deser hopen ?_ ?_ ?_ ?_ hdeser
    · dsimp only
      rw [List.length_set]
      exact hlut
    · dsimp only
      rw [getD_set_self _ _ _ _ hlut]
      exact data_ne_zero_of_count _ (hcnt1 _)
    · dsimp only
      rw [getD_set_self _ _ _ _ hlut]
      have hsi : (s.blocks_begin_offset + s.sectors.length * s.header.format.sector_size -
          s.blocks_begin_offset) / s.header.format.sector_size = s.sectors.length := by
        have e1 : s.blocks_begin_offset +
            s.sectors.length * s.header.format.sector_size - s.blocks_begin_offset =
            s.sectors.length * s.header.format.sector_size := by omega
        rw [e1, Nat.mul_div_cancel _ hssp]
      dsimp only
      rw [hsi]
      rw [get_32_storeBytes_before _ _ _ _ (by omega) (by rw [hf1len]; omega)]
      exact (store_then_readback s.file _ (ser block) hofs h32).1
    · dsimp only
      rw [getD_set_self _ _ _ _ hlut]
      have hsi : (s.blocks_begin_offset + s.sectors.length * s.header.format.sector_size -
          s.blocks_begin_offset) / s.header.format.sector_size = s.sectors.length := by
        have e1 : s.blocks_begin_offset +
            s.sectors.length * s.header.format.sector_size - s.blocks_begin_offset =
            s.sectors.length * s.header.format.sector_size := by omega
        rw [e1, Nat.mul_div_cancel _ hssp]
      dsimp only
      rw [hsi]
      rw [readBytes_storeBytes_before _ _ _ _ _ (by rw [hf1len]; omega) (by omega)]
      exact (store_then_readback s.file _ (ser block) hofs h32).2
  · -- existing block
    rw [if_neg hA]
    have hpresOld : (s.header.blocks.getD
        (position.get_zxy_index s.header.format.region_size) ⟨0, 0⟩).data ≠ 0 := hA
    have hrange := inv_range_le s hinv _ hlut hpresOld
    have hsc1 := inv_count_pos s hinv _ hlut hpresOld
    by_cases hBC : get_sector_count_from_bytes s.header.format.sector_size
        (4 + (ser block).length) ≤
        (s.header.blocks.getD (position.get_zxy_index s.header.format.region_size)
          ⟨0, 0⟩).sector_count
    · -- Case B: rewrite in place
      rw [if_pos hBC]
      by_cases hSh : get_sector_count_from_bytes s.header.format.sector_size
          (4 + (ser block).length) <
          (s.header.blocks.getD (position.get_zxy_index s.header.format.region_size)
            ⟨0, 0⟩).sector_count
      · -- shrinking rewrite
        rw [if_pos hSh]
        obtain ⟨rA1, rA2, rA3, rA4, rsec, rseclen, rblen, rE, rF, rflen, rslide, rkeep⟩ :=
          remove_sectors_spec s position
            ((s.header.blocks.getD (position.get_zxy_index s.header.format.region_size)
              ⟨0, 0⟩).sector_count -
              get_sector_count_from_bytes s.header.format.sector_size
                (4 + (ser block).length))
            (position.get_zxy_index s.header.format.region_size)
            (s.header.blocks.getD (position.get_zxy_index s.header.format.region_size)
              ⟨0, 0⟩)
            rfl rfl hinv hlut hpresOld (by omega) (by omega)
        have rE2 : (remove_sectors_from_block s position
            ((s.header.blocks.getD (position.get_zxy_index s.header.format.region_size)
              ⟨0, 0⟩).sector_count -
              get_sector_count_from_bytes s.header.format.sector_size
                (4 + (ser block).length))).header.blocks.getD
            (position.get_zxy_index s.header.format.region_size) ⟨0, 0⟩ =
            BlockInfo.mk
              (s.header.blocks.getD (position.get_zxy_index s.header.format.region_size)
                ⟨0, 0⟩).sector_index
              ((s.header.blocks.getD (position.get_zxy_index s.header.format.region_size)
                ⟨0, 0⟩).sector_count -
                ((s.header.blocks.getD (position.get_zxy_index s.header.format.region_size)
                  ⟨0, 0⟩).sector_count -
                  get_sector_count_from_bytes s.header.format.sector_size
                    (4 + (ser block).length))) := by
          rw [rE, if_pos (by omega)]
        have hle2 : s.blocks_begin_offset +
            (s.header.blocks.getD (position.get_zxy_index s.header.format.region_size)
              ⟨0, 0⟩).sector_index * s.header.format.sector_size ≤
            (remove_sectors_from_block s position
              ((s.header.blocks.getD (position.get_zxy_index s.header.format.region_size)
                ⟨0, 0⟩).sector_count -
                get_sector_count_from_bytes s.header.format.sector_size
                  (4 + (ser block).length))).file.length := by
          rw [rflen]
          have hmul : (s.header.blocks.getD
              (position.get_zxy_index s.header.format.region_size)
              ⟨0, 0⟩).sector_index * s.header.format.sector_size ≤
              s.sectors.length * s.header.format.sector_size :=
            Nat.mul_le_mul_right _ (by omega)
          omega
        refine ⟨rfl, ?_⟩
        refine load_block_reads _ position out block (ser block) deser ?_ ?_ ?_ ?_ ?_ hdeser
        · dsimp only
          rw [rA4]
          exact hopen
        · dsimp only
          rw [rA1, List.length_set, rblen]
          exact hlut
        · dsimp only
          rw [rA1, getD_set_self _ _ _ _ (by rw [rblen]; exact hlut)]
          exact data_ne_zero_of_count _ (by dsimp only; exact hnew1)
        · dsimp only
          rw [rA1, rA2, getD_set_self _ _ _ _ (by rw [rblen]; exact hlut), rE2]
          dsimp only
          exact (store_then_readback _ _ (ser block) hle2 h32).1
        · dsimp only
          rw [rA1, rA2, getD_set_self _ _ _ _ (by rw [rblen]; exact hlut), rE2]
          dsimp only
          exact (store_then_readback _ _ (ser block) hle2 h32).2
      · -- same-size rewrite in place
        rw [if_neg hSh]
        have hle2 : s.blocks_begin_offset +
            (s.header.blocks.getD (position.get_zxy_index s.header.format.region_size)
              ⟨0, 0⟩).sector_index * s.header.format.sector_size ≤ s.file.length := by
          have hmul : (s.header.blocks.getD
              (position.get_zxy_index s.header.format.region_size)
              ⟨0, 0⟩).sector_index * s.header.format.sector_size ≤
              s.sectors.length * s.header.format.sector_size :=
            Nat.mul_le_mul_right _ (by omega)
          omega
        refine ⟨rfl, ?_⟩
        refine load_block_reads _ position out block (ser block) deser ?_ ?_ ?_ ?_ ?_ hdeser
        · exact hopen
        · dsimp only
          rw [List.length_set]
          exact hlut
        · dsimp only
          rw [getD_set_self _ _ _ _ hlut]
          exact data_ne_zero_of_count _ (by dsimp only; exact hnew1)
        · dsimp only
          rw [getD_set_self _ _ _ _ hlut]
          dsimp only
          exact (store_then_readback _ _ (ser block) hle2 h32).1
        · dsimp only
          rw [getD_set_self _ _ _ _ hlut]
          dsimp only
          exact (store_then_readback _ _ (ser block) hle2 h32).2
    · -- Case C: grow, discard and append at the new end
      rw [if_neg hBC]
      obtain ⟨bA1, bA2, bA3, bA4, bseclen, bblen, bflen⟩ :=
        remove_sectors_basic s position
          ((s.header.blocks.getD (position.get_zxy_index s.header.format.region_size)
            ⟨0, 0⟩).sector_count)
          (position.get_zxy_index s.header.format.region_size)
          (s.header.blocks.getD (position.get_zxy_index s.header.format.region_size)
            ⟨0, 0⟩)
          rfl rfl hinv hlut hpresOld (Nat.le_refl _)
      have hof : s.blocks_begin_offset +
          (remove_sectors_from_block s position
            ((s.header.blocks.getD (position.get_zxy_index s.header.format.region_size)
              ⟨0, 0⟩).sector_count)).sectors.length * s.header.format.sector_size ≤
          (remove_sectors_from_block s position
            ((s.header.blocks.getD (position.get_zxy_index s.header.format.region_size)
              ⟨0, 0⟩).sector_count)).file.length := by
        rw [bflen, bseclen]
        have hmul : (s.sectors.length -
            (s.header.blocks.getD (position.get_zxy_index s.header.format.region_size)
              ⟨0, 0⟩).sector_count) * s.header.format.sector_size ≤
            s.sectors.length * s.header.format.sector_size :=
          Nat.mul_le_mul_right _ (by omega)
        omega
      have hf1len : (storeBytes
          (remove_sectors_from_block s position
            ((s.header.blocks.getD (position.get_zxy_index s.header.format.region_size)
              ⟨0, 0⟩).sector_count)).file
          (s.blocks_begin_offset +
            (remove_sectors_from_block s position
              ((s.header.blocks.getD (position.get_zxy_index s.header.format.region_size)
                ⟨0, 0⟩).sector_count)).sectors.length * s.header.format.sector_size)
          (encode32 (ser block).length ++ ser block)).length =
          max (remove_sectors_from_block s position
            ((s.header.blocks.getD (position.get_zxy_index s.header.format.region_size)
              ⟨0, 0⟩).sector_count)).file.length
            (s.blocks_begin_offset +
              (remove_sectors_from_block s position
                ((s.header.blocks.getD (position.get_zxy_index s.header.format.region_size)
                  ⟨0, 0⟩).sector_count)).sectors.length * s.header.format.sector_size +
              (4 + (ser block).length)) := by
        rw [storeBytes_length _ _ _ hof]
        congr 1
        rw [List.length_append]
        have h4 : (encode32 (ser block).length).length = 4 := rfl
        rw [h4]
      refine ⟨rfl, ?_⟩
      refine load_block_reads _ position out block (ser block) deser ?_ ?_ ?_ ?_ ?_ hdeser
      · dsimp only
        rw [bA4]
        exact hopen
      · dsimp only
        rw [bA1, List.length_set, bblen]
        exact hlut
      · dsimp only
        rw [bA1, getD_set_self _ _ _ _ (by rw [bblen]; exact hlut)]
        exact data_ne_zero_of_count _ (by dsimp only; exact hnew1)
      · dsimp only
        rw [bA1, bA2, getD_set_self _ _ _ _ (by rw [bblen]; exact hlut)]
        dsimp only
        rw [get_32_storeBytes_before _ _ _ _ (by omega) (by rw [hf1len]; omega)]
        exact (store_then_readback _ _ (ser block) hof h32).1
      · dsimp only
        rw [bA1, bA2, getD_set_self _ _ _ _ (by rw [bblen]; exact hlut)]
        dsimp only
        rw [readBytes_storeBytes_before _ _ _ _ _ (by rw [hf1len]; omega) (by omega)]
        exact (store_then_readback _ _ (ser block) hof h32).2

/-- Witness for C1: saving the test block into the fresh `testState1` and
loading it back with `testDeserRT` returns the block with the format's
channel depths. -/
theorem save_then_load_roundtrip_witness :
    (save_block testState1 ⟨0, 0, 0⟩ testBlock testSer1).1 = Err.OK ∧
      load_block (save_block testState1 ⟨0, 0, 0⟩ testBlock testSer1).2 ⟨0, 0, 0⟩
        (some testBlock) testDeserRT =
        (Err.OK,
          some { testBlock with channel_depths := testState1.header.format.channel_depths }) :=
  save_then_load_roundtrip testState1 ⟨0, 0, 0⟩ testBlock testBlock testSer1 testDeserRT
    (by decide) (by decide) (by decide) (by decide) (by decide) (fun _ => rfl)

/-- C4: on an open region file satisfying the invariants, with the block at
`pos` present as `bi` and `0 < n ≤ bi.sector_count`, `n < sector map size`,
`remove_sectors_from_block` erases the block's last `n` owned map entries,
slides every later sector leftward by `n` positions in both the sector map
and the file, decrements the block's `sector_count` by `n` (clearing the
entry to absent when `n = sector_count`), decrements `sector_index` by `n`
for every other present block whose `sector_index` exceeds the old one
(leaving all remaining entries unchanged), and re-establishes the
invariants I1-I3 (ownership, map length, range bounds with pairwise
disjointness and a gapless sector prefix). -/
theorem remove_sectors_correct (s : RegionState) (pos : Vector3i) (n : Nat)
    (bidx : Nat) (bi : BlockInfo)
    (hbidx_def : bidx = pos.get_zxy_index s.header.format.region_size)
    (hbi_def : bi = s.header.blocks.getD bidx ⟨0, 0⟩)
    (hinv : InvOpen s)
    (hlt : bidx < s.header.blocks.length)
    (hpres : bi.data ≠ 0)
    (hn1 : 0 < n) (hn2 : n ≤ bi.sector_count) (hn3 : n < s.sectors.length) :
    (remove_sectors_from_block s pos n).sectors =
      s.sectors.take (bi.sector_index + bi.sector_count - n) ++
        s.sectors.drop (bi.sector_index + bi.sector_count) ∧
    (remove_sectors_from_block s pos n).sectors.length = s.sectors.length - n ∧
    (∀ k, bi.sector_index + bi.sector_count ≤ k → k < s.sectors.length →
      (remove_sectors_from_block s pos n).sectors.getD (k - n) ⟨0, 0, 0⟩ =
          s.sectors.getD k ⟨0, 0, 0⟩ ∧
        readBytes (remove_sectors_from_block s pos n).file
            (s.blocks_begin_offset + (k - n) * s.header.format.sector_size)
            s.header.format.sector_size =
          readBytes s.file (s.blocks_begin_offset + k * s.header.format.sector_size)
            s.header.format.sector_size) ∧
    (remove_sectors_from_block s pos n).header.blocks.getD bidx ⟨0, 0⟩ =
      (if n < bi.sector_count then BlockInfo.mk bi.sector_index (bi.sector_count - n)
       else BlockInfo.mk 0 0) ∧
    (n = bi.sector_count →
      ((remove_sectors_from_block s pos n).header.blocks.getD bidx ⟨0, 0⟩).data = 0) ∧
    (∀ i, i < s.header.blocks.length → i ≠ bidx →
      (s.header.blocks.getD i ⟨0, 0⟩).data ≠ 0 →
      bi.sector_index < (s.header.blocks.getD i ⟨0, 0⟩).sector_index →
      (remove_sectors_from_block s pos n).header.blocks.getD i ⟨0, 0⟩ =
        BlockInfo.mk ((s.header.blocks.getD i ⟨0, 0⟩).sector_index - n)
          (s.header.blocks.getD i ⟨0, 0⟩).sector_count) ∧
    (∀ i, i < s.header.blocks.length → i ≠ bidx →
      ¬((s.header.blocks.getD i ⟨0, 0⟩).data ≠ 0 ∧
          bi.sector_index < (s.header.blocks.getD i ⟨0, 0⟩).sector_index) →
      (remove_sectors_from_block s pos n).header.blocks.getD i ⟨0, 0⟩ =
        s.header.blocks.getD i ⟨0, 0⟩) ∧
    InvOpen (remove_sectors_from_block s pos n) ∧
    (∀ i j, i < (remove_sectors_from_block s pos n).header.blocks.length →
      j < (remove_sectors_from_block s pos n).header.blocks.length → i ≠ j →
      ((remove_sectors_from_block s pos n).header.blocks.getD i ⟨0, 0⟩).data ≠ 0 →
      ((remove_sectors_from_block s pos n).header.blocks.getD j ⟨0, 0⟩).data ≠ 0 →
      ((remove_sectors_from_block s pos n).header.blocks.getD i ⟨0, 0⟩).sector_index +
          ((remove_sectors_from_block s pos n).header.blocks.getD i ⟨0, 0⟩).sector_count ≤
        ((remove_sectors_from_block s pos n).header.blocks.getD j ⟨0, 0⟩).sector_index ∨
      ((remove_sectors_from_block s pos n).header.blocks.getD j ⟨0, 0⟩).sector_index +
          ((remove_sectors_from_block s pos n).header.blocks.getD j ⟨0, 0⟩).sector_count ≤
        ((remove_sectors_from_block s pos n).header.blocks.getD i ⟨0, 0⟩).sector_index) ∧
    (∀ x, x < (remove_sectors_from_block s pos n).sectors.length →
      ∃ i, i < (remove_sectors_from_block s pos n).header.blocks.length ∧
        ((remove_sectors_from_block s pos n).header.blocks.getD i ⟨0, 0⟩).data ≠ 0 ∧
        ((remove_sectors_from_block s pos n).header.blocks.getD i ⟨0, 0⟩).sector_index ≤ x ∧
        x < ((remove_sectors_from_block s pos n).header.blocks.getD i ⟨0, 0⟩).sector_index +
          ((remove_sectors_from_block s pos n).header.blocks.getD i ⟨0, 0⟩).sector_count) := by
  obtain ⟨hA1, hA2, hA3, hA4, hsec, hseclen, hblen, hE, hF, hflen, hslide, hkeep⟩ :=
    remove_sectors_spec s pos n bidx bi hbidx_def hbi_def hinv hlt hpres hn1 hn2
  have hinvt : InvOpen (remove_sectors_from_block s pos n) :=
    remove_sectors_inv s pos n bidx bi hbidx_def hbi_def hinv hlt hpres hn1 hn2
  have hsc1 : 1 ≤ bi.sector_count := by
    rw [hbi_def]
    exact inv_count_pos s hinv bidx hlt (hbi_def ▸ hpres)
  have hrange : bi.sector_index + bi.sector_count ≤ s.sectors.length := by
    rw [hbi_def]
    exact inv_range_le s hinv bidx hlt (hbi_def ▸ hpres)
  refine ⟨hsec, hseclen, ?_, hE, ?_, ?_, ?_, hinvt, ?_, ?_⟩
  · intro k hk1 hk2
    constructor
    · rw [hsec, getD_take_append_drop_hi _ _ _ _ _ (by omega) (by omega)]
      have harg : bi.sector_index + bi.sector_count +
          (k - n - (bi.sector_index + bi.sector_count - n)) = k := by omega
      rw [harg]
    · have h := hslide (k - n) (by omega) (by omega)
      rw [show k - n + n = k from by omega] at h
      exact h
  · intro hnc
    rw [hE, if_neg (by omega)]
    decide
  · intro i hi hne hp hgt
    rw [hF i hi hne, if_pos ⟨hp, hgt⟩]
  · intro i hi hne hcond
    rw [hF i hi hne, if_neg hcond]
  · intro i j hi hj hne hpi hpj
    exact inv_disjoint _ hinvt i j hi hj hne hpi hpj
  · intro x hx
    exact inv_gapless _ hinvt x hx

/-- Witness for C4: removing one sector of block `(1,0,0)` in `testState2`
leaves it with one sector, slides block `(0,0,0)` down to sector index 1,
and shrinks the map to two entries. -/
theorem remove_sectors_correct_witness :
    (remove_sectors_from_block testState2 ⟨1, 0, 0⟩ 1).header.blocks.getD 1 ⟨0, 0⟩ =
        BlockInfo.mk 0 1 ∧
      (remove_sectors_from_block testState2 ⟨1, 0, 0⟩ 1).header.blocks.getD 0 ⟨0, 0⟩ =
        BlockInfo.mk 1 1 ∧
      (remove_sectors_from_block testState2 ⟨1, 0, 0⟩ 1).sectors.length = 2 := by
  obtain ⟨h1, h2, h3, h4, h5, h6, h7, h8, h9, h10⟩ :=
    remove_sectors_correct testState2 ⟨1, 0, 0⟩ 1 1 ⟨0, 2⟩ (by decide) rfl (by decide)
      (by decide) (by decide) (by decide) (by decide) (by decide)
  refine ⟨?_, ?_, ?_⟩
  · rw [h4]
    decide
  · rw [h6 0 (by decide) (by decide) (by decide) (by decide)]
    decide
  · rw [h2]
    decide

/-- C3: on an open region file satisfying the invariants where the block at
`pos` is present with `bi.sector_count` sectors and the new payload needs
`newc > bi.sector_count` sectors, `save_block` discards the old sectors via
compaction and appends at the new end as in Case A: it returns `OK`, the
block's new entry is `⟨post-compaction map length, newc⟩`, every other
present block whose sectors lay after the old ones has its `sector_index`
decreased by the old count while all remaining entries are unchanged, and
the final map holds the compacted sectors plus `newc` new ones. -/
theorem save_block_grow_case (s : RegionState) (position : Vector3i)
    (block : VoxelBlock) (ser : VoxelBlock → List Nat) (lut newc : Nat) (bi : BlockInfo)
    (hlut_def : lut = position.get_zxy_index s.header.format.region_size)
    (hbi_def : bi = s.header.blocks.getD lut ⟨0, 0⟩)
    (hnew_def : newc =
      get_sector_count_from_bytes s.header.format.sector_size (4 + (ser block).length))
    (hinv : InvOpen s) (hopen : s.fileOpen = true)
    (hvf : verify_format s.header.format block = true)
    (hlut : lut < s.header.blocks.length)
    (hpres : bi.data ≠ 0)
    (hgrow : bi.sector_count < newc) :
    (save_block s position block ser).1 = Err.OK ∧
    (save_block s position block ser).2.header.blocks.getD lut ⟨0, 0⟩ =
      BlockInfo.mk (s.sectors.length - bi.sector_count) newc ∧
    s.sectors.length - bi.sector_count =
      (remove_sectors_from_block s position bi.sector_count).sectors.length ∧
    (∀ i, i < s.header.blocks.length → i ≠ lut →
      (save_block s position block ser).2.header.blocks.getD i ⟨0, 0⟩ =
        (if (s.header.blocks.getD i ⟨0, 0⟩).data ≠ 0 ∧
            bi.sector_index < (s.header.blocks.getD i ⟨0, 0⟩).sector_index
         then BlockInfo.mk ((s.header.blocks.getD i ⟨0, 0⟩).sector_index - bi.sector_count)
                (s.header.blocks.getD i ⟨0, 0⟩).sector_count
         else s.header.blocks.getD i ⟨0, 0⟩)) ∧
    (save_block s position block ser).2.sectors.length =
      s.sectors.length - bi.sector_count + newc := by
  subst hlut_def
  subst hbi_def
  subst hnew_def
  have hver := hinv.1
  have hsc1 := inv_count_pos s hinv _ hlut hpres
  obtain ⟨rA1, rA2, rA3, rA4, rsec, rseclen, rblen, rE, rF, rflen, rslide, rkeep⟩ :=
    remove_sectors_spec s position
      ((s.header.blocks.getD (position.get_zxy_index s.header.format.region_size)
        ⟨0, 0⟩).sector_count)
      (position.get_zxy_index s.header.format.region_size)
      (s.header.blocks.getD (position.get_zxy_index s.header.format.region_size) ⟨0, 0⟩)
      rfl rfl hinv hlut hpres hsc1 (Nat.le_refl _)
  unfold save_block
  simp only [hvf, Bool.true_eq_false, if_false, hopen, ite_false]
  rw [if_neg (show ¬(s.header.version ≠ FORMAT_VERSION) from by rw [hver]; simp)]
  dsimp only
  rw [if_neg (Nat.not_le_of_lt hlut), if_neg hpres,
    if_neg (show ¬(get_sector_count_from_bytes s.header.format.sector_size
      (4 + (ser block).length) ≤
      (s.header.blocks.getD (position.get_zxy_index s.header.format.region_size)
        ⟨0, 0⟩).sector_count) from by omega)]
  dsimp only
  refine ⟨rfl, ?_, by rw [rseclen], ?_, ?_⟩
  · rw [getD_set_self _ _ _ _ (by rw [rblen]; exact hlut), rseclen]
  · intro i hi hne
    rw [getD_set_other _ _ _ _ _ (fun h => hne h.symm)]
    exact rF i hi hne
  · rw [List.length_append, List.length_replicate, rseclen]

/-- Witness for C3: growing block `(0,0,0)` of `testState2` from one sector
to three compacts `(1,0,0)` down to sectors `[0..1]` (it started there, so
it is unchanged) and re-appends `(0,0,0)` at sectors `[2..4]`. -/
theorem save_block_grow_case_witness :
    (save_block testState2 ⟨0, 0, 0⟩ testBlock testSer3).1 = Err.OK ∧
      (save_block testState2 ⟨0, 0, 0⟩ testBlock testSer3).2.header.blocks.getD 0 ⟨0, 0⟩ =
        BlockInfo.mk 2 3 ∧
      (save_block testState2 ⟨0, 0, 0⟩ testBlock testSer3).2.header.blocks.getD 1 ⟨0, 0⟩ =
        BlockInfo.mk 0 2 ∧
      (save_block testState2 ⟨0, 0, 0⟩ testBlock testSer3).2.sectors.length = 5 := by
  obtain ⟨h1, h2, h3, h4, h5⟩ :=
    save_block_grow_case testState2 ⟨0, 0, 0⟩ testBlock testSer3 0 3 ⟨2, 1⟩
      rfl rfl rfl (by decide) rfl (by decide) (by decide) (by decide) (by decide)
  refine ⟨h1, ?_, ?_, ?_⟩
  · rw [h2]
    decide
  · rw [h4 1 (by decide) (by decide)]
    decide
  · rw [h5]
    decide

/-- C2: along every sequence of successful public operations (open,
save_block, load_block, close) from a state satisfying the invariant, the
in-memory state keeps the invariant; whenever it is open it satisfies I1
(each present block owns exactly the map entries of its sector range, all
equal to its grid position), I2 (the map length is the total of present
sector counts) and I3 (every present range lies inside the map, present
ranges are pairwise disjoint, and the owned sectors tile the gapless prefix
of the map). -/
theorem invariants_preserved (s s' : RegionState) (hinv : Inv s)
    (hreach : Reachable s s') :
    Inv s' ∧
    (s'.fileOpen = true →
      (∀ i, i < s'.header.blocks.length →
        (s'.header.blocks.getD i ⟨0, 0⟩).data ≠ 0 →
          1 ≤ (s'.header.blocks.getD i ⟨0, 0⟩).sector_count ∧
          ∀ j, j < (s'.header.blocks.getD i ⟨0, 0⟩).sector_count →
            (s'.header.blocks.getD i ⟨0, 0⟩).sector_index + j < s'.sectors.length ∧
            s'.sectors.getD ((s'.header.blocks.getD i ⟨0, 0⟩).sector_index + j)
                ⟨0, 0, 0⟩ =
              Vector3i.from_zxy_index i s'.header.format.region_size) ∧
      s'.sectors.length = sumCounts s'.header.blocks ∧
      (∀ i, i < s'.header.blocks.length →
        (s'.header.blocks.getD i ⟨0, 0⟩).data ≠ 0 →
        (s'.header.blocks.getD i ⟨0, 0⟩).sector_index +
          (s'.header.blocks.getD i ⟨0, 0⟩).sector_count ≤ s'.sectors.length) ∧
      (∀ i j, i < s'.header.blocks.length → j < s'.header.blocks.length → i ≠ j →
        (s'.header.blocks.getD i ⟨0, 0⟩).data ≠ 0 →
        (s'.header.blocks.getD j ⟨0, 0⟩).data ≠ 0 →
        (s'.header.blocks.getD i ⟨0, 0⟩).sector_index +
            (s'.header.blocks.getD i ⟨0, 0⟩).sector_count ≤
          (s'.header.blocks.getD j ⟨0, 0⟩).sector_index ∨
        (s'.header.blocks.getD j ⟨0, 0⟩).sector_index +
            (s'.header.blocks.getD j ⟨0, 0⟩).sector_count ≤
          (s'.header.blocks.getD i ⟨0, 0⟩).sector_index) ∧
      (∀ x, x < s'.sectors.length →
        ∃ i, i < s'.header.blocks.length ∧
          (s'.header.blocks.getD i ⟨0, 0⟩).data ≠ 0 ∧
          (s'.header.blocks.getD i ⟨0, 0⟩).sector_index ≤ x ∧
          x < (s'.header.blocks.getD i ⟨0, 0⟩).sector_index +
            (s'.header.blocks.getD i ⟨0, 0⟩).sector_count)) := by
  have hinv' : Inv s' := by
    induction hreach with
    | refl => exact hinv
    | tail _hpre hstep ih => exact step_preserves_inv _ _ hstep ih
  refine ⟨hinv', ?_⟩
  intro hopen
  have hio : InvOpen s' := hinv' hopen
  refine ⟨hio.2.2.2.1, hio.2.2.2.2.1, ?_, ?_, ?_⟩
  · intro i hi hp
    exact inv_range_le s' hio i hi hp
  · intro i j hi hj hne hpi hpj
    exact inv_disjoint s' hio i j hi hj hne hpi hpj
  · intro x hx
    exact inv_gapless s' hio x hx

/-- Witness for C2: one successful `save_block` step from the fresh
`testState1` keeps the invariant, in particular I2 on the result. -/
theorem invariants_preserved_witness :
    Inv (save_block testState1 ⟨0, 0, 0⟩ testBlock testSer1).2 ∧
      (save_block testState1 ⟨0, 0, 0⟩ testBlock testSer1).2.sectors.length =
        sumCounts (save_block testState1 ⟨0, 0, 0⟩ testBlock testSer1).2.header.blocks := by
  obtain ⟨h1, h2⟩ := invariants_preserved testState1
    (save_block testState1 ⟨0, 0, 0⟩ testBlock testSer1).2 (by decide)
    (Relation.ReflTransGen.single
      (Step.save_ok testState1 ⟨0, 0, 0⟩ testBlock testSer1 (by decide) (by decide)))
  exact ⟨h1, (h2 (by decide)).2.1⟩

/-- C6: on an open file whose version is not current, `save_block` migrates
first.  For a legacy v2 file with a staged format, migration inserts
`new_header_size − old_header_size` raw bytes at `MAGIC_AND_VERSION_SIZE`
(first five bytes kept, old tail shifted right by that amount), sets the
version to the current one before the header rewrite — so `save_header` on
the migrated state takes its plain write path instead of re-entering
migration — and `save_block` proceeds; `save_block` returns `UNAVAILABLE`
exactly when migration is impossible: unknown version or no staged format
(`block_size_po2 = 0`). -/
theorem save_block_migration (s : RegionState) (position : Vector3i)
    (block : VoxelBlock) (ser : VoxelBlock → List Nat)
    (hopen : s.fileOpen = true) (hpath : s.file_path ≠ "")
    (hvf : verify_format s.header.format block = true)
    (hflen : MAGIC_AND_VERSION_SIZE ≤ s.file.length) :
    (s.header.version = FORMAT_VERSION_LEGACY_2 →
      s.header.format.block_size_po2 ≠ 0 →
      (migrate_to_latest s = some (save_header_write
          { s with
            file := insertBytes s.file MAGIC_AND_VERSION_SIZE
              (get_header_size_v3 s.header.format - MAGIC_AND_VERSION_SIZE -
                s.header.format.region_size.volume * 4),
            header := { s.header with version := FORMAT_VERSION } }) ∧
        (∀ k, (insertBytes s.file MAGIC_AND_VERSION_SIZE k).take MAGIC_AND_VERSION_SIZE =
            s.file.take MAGIC_AND_VERSION_SIZE ∧
          (insertBytes s.file MAGIC_AND_VERSION_SIZE k).drop (MAGIC_AND_VERSION_SIZE + k) =
            s.file.drop MAGIC_AND_VERSION_SIZE ∧
          (insertBytes s.file MAGIC_AND_VERSION_SIZE k).length = s.file.length + k) ∧
        (∀ s1 : RegionState, s1.header.version = FORMAT_VERSION →
          save_header s1 = some (save_header_write s1)) ∧
        (save_block s position block ser).1 ≠ Err.UNAVAILABLE)) ∧
    (s.header.version ≠ FORMAT_VERSION →
      ((save_block s position block ser).1 = Err.UNAVAILABLE ↔
        (s.header.version ≠ FORMAT_VERSION_LEGACY_2 ∨
          s.header.format.block_size_po2 = 0))) := by
  have hnewold : ¬ (get_header_size_v3 s.header.format - MAGIC_AND_VERSION_SIZE <
      s.header.format.region_size.volume * 4) := by
    unfold get_header_size_v3 MAGIC_AND_VERSION_SIZE FIXED_HEADER_DATA_SIZE
      PALETTE_SIZE_IN_BYTES CHANNEL_COUNT
    cases s.header.format.has_palette <;> simp <;> omega
  have hv23 : FORMAT_VERSION_LEGACY_2 ≠ FORMAT_VERSION := by
    unfold FORMAT_VERSION FORMAT_VERSION_LEGACY_2
    omega
  constructor
  · intro hv2 hpo2
    have hmig : migrate_to_latest s = some (save_header_write
        { s with
          file := insertBytes s.file MAGIC_AND_VERSION_SIZE
            (get_header_size_v3 s.header.format - MAGIC_AND_VERSION_SIZE -
              s.header.format.region_size.volume * 4),
          header := { s.header with version := FORMAT_VERSION } }) := by
      unfold migrate_to_latest migrate_from_v2_to_v3
      rw [hopen]
      rw [if_neg (by simp)]
      rw [if_neg hpath, if_pos hv2, if_neg hpo2, if_neg hnewold]
    refine ⟨hmig, ?_, ?_, ?_⟩
    · intro k
      have h5 : (s.file.take MAGIC_AND_VERSION_SIZE).length = MAGIC_AND_VERSION_SIZE := by
        rw [List.length_take]
        omega
      unfold insertBytes
      refine ⟨?_, ?_, ?_⟩
      · rw [List.append_assoc, List.take_left' h5]
      · have h5k : (s.file.take MAGIC_AND_VERSION_SIZE ++ List.replicate k 0).length =
            MAGIC_AND_VERSION_SIZE + k := by
          rw [List.length_append, h5, List.length_replicate]
        rw [List.drop_left' h5k]
      · simp [List.length_append, List.length_take, List.length_replicate, List.length_drop]
        omega
    · intro s1 hs1
      unfold save_header
      rw [if_neg (by simp [hs1])]
    · unfold save_block
      rw [hvf]
      rw [if_neg (by simp)]
      rw [hopen]
      rw [if_neg (by simp)]
      rw [if_pos (by rw [hv2]; exact hv23), hmig]
      split
      · simp_all
      · rename_i s1 heq
        injection heq with heq2
        subst heq2
        dsimp only
        split
        · simp
        · split
          · simp
          · split <;> simp
  · intro hv3
    unfold save_block
    rw [hvf]
    rw [if_neg (by simp)]
    rw [hopen]
    rw [if_neg (by simp)]
    rw [if_pos hv3]
    by_cases hv2 : s.header.version = FORMAT_VERSION_LEGACY_2
    · by_cases hpo2 : s.header.format.block_size_po2 = 0
      · have hmig : migrate_to_latest s = none := by
          unfold migrate_to_latest migrate_from_v2_to_v3
          rw [hopen]
          rw [if_neg (by simp), if_neg hpath, if_pos hv2, if_pos hpo2]
        rw [hmig]
        simp [hv2, hpo2]
      · have hmig : migrate_to_latest s = some (save_header_write
            { s with
              file := insertBytes s.file MAGIC_AND_VERSION_SIZE
                (get_header_size_v3 s.header.format - MAGIC_AND_VERSION_SIZE -
                  s.header.format.region_size.volume * 4),
              header := { s.header with version := FORMAT_VERSION } }) := by
          unfold migrate_to_latest migrate_from_v2_to_v3
          rw [hopen]
          rw [if_neg (by simp), if_neg hpath, if_pos hv2, if_neg hpo2, if_neg hnewold]
        rw [hmig]
        simp only [hv2, hpo2, not_true_eq_false, or_false, false_iff]
        split
        · simp
        · split
          · simp
          · split <;> simp
    · have hmig : migrate_to_latest s = none := by
        unfold migrate_to_latest
        rw [hopen]
        rw [if_neg (by simp), if_neg hpath, if_neg hv2, if_pos hv3]
      rw [hmig]
      simp [hv2]

/-- Witness for C6: the concrete legacy-v2 state `testStateV2` migrates
instead of failing. -/
theorem save_block_migration_witness :
    (save_block testStateV2 ⟨0, 0, 0⟩ testBlock testSer1).1 ≠ Err.UNAVAILABLE :=
  ((save_block_migration testStateV2 ⟨0, 0, 0⟩ testBlock testSer1 (by decide)
      (by decide) (by decide) (by decide)).1 (by decide) (by decide)).2.2.2

/-- Witness for C5: round trip of the concrete header of `testState2`. -/
theorem header_roundtrip_witness :
    load_header testState2.header.format (encodeHeader testState2.header) =
        some (testState2.header, (encodeHeader testState2.header).length) ∧
      (encodeHeader testState2.header).length = get_header_size_v3 testState2.header.format :=
  header_roundtrip testState2.header (by decide)

/-- Witness for C8 at `R = (3,4,5)`, `p = (2,1,3)`. -/
theorem zxy_index_bijection_witness :
    (Vector3i.mk 2 1 3).get_zxy_index ⟨3, 4, 5⟩ =
        1 + 4 * (2 + 3 * 3) ∧
      (Vector3i.mk 2 1 3).get_zxy_index ⟨3, 4, 5⟩ < Vector3i.volume ⟨3, 4, 5⟩ ∧
      Vector3i.from_zxy_index ((Vector3i.mk 2 1 3).get_zxy_index ⟨3, 4, 5⟩) ⟨3, 4, 5⟩ =
        ⟨2, 1, 3⟩ ∧
      ∀ i, i < Vector3i.volume ⟨3, 4, 5⟩ →
        (Vector3i.from_zxy_index i ⟨3, 4, 5⟩).get_zxy_index ⟨3, 4, 5⟩ = i :=
  zxy_index_bijection ⟨3, 4, 5⟩ ⟨2, 1, 3⟩ (by decide) (by decide) (by decide)

end VoxelRegionFile
